import Mathlib

/-!
A shallow embedding of the Kin Solana transaction-semantics layer of the
agora-common repository, together with theorems settling the frozen claims.

Conventions of the embedding:
- byte strings are lists of naturals (each entry intended in 0..255);
- Go functions returning (value, error) become Option/Except valued
  functions;
- public keys are byte lists compared element-wise, as bytes.Equal does;
- machine integers are naturals, with explicit mod where overflow matters.

Definitions are translated from the Go sources. A few helpers called by
ParseTransaction exist in the repository but their defining files are not
part of the source snapshot (only callers and tests are); those are
modelled from the specification and carry a doc comment starting with
Modelled from the spec.
-/

namespace Agora

set_option maxRecDepth 10000

/-! Definitions: the shallow embedding of the program, and the concrete
inputs the witnesses and counterexamples evaluate it on. -/

abbrev Bytes := List Nat

/-- binary.LittleEndian.Uint64 over the first 8 bytes (missing bytes read as 0). -/
def leUint64 (b : Bytes) : Nat :=
  b.getD 0 0 + 256 * b.getD 1 0 + 65536 * b.getD 2 0 + 16777216 * b.getD 3 0 +
  4294967296 * b.getD 4 0 + 1099511627776 * b.getD 5 0 +
  281474976710656 * b.getD 6 0 + 72057594037927936 * b.getD 7 0

/-- binary.LittleEndian.PutUint64: the 8 little-endian bytes of a 64-bit value. -/
def leUint64Bytes (n : Nat) : Bytes :=
  [n % 256, n / 256 % 256, n / 65536 % 256, n / 16777216 % 256,
   n / 4294967296 % 256, n / 1099511627776 % 256, n / 281474976710656 % 256,
   n / 72057594037927936 % 256]

/-- binary.BigEndian.Uint32 over the first 4 bytes. -/
def beUint32 (b : Bytes) : Nat :=
  16777216 * b.getD 0 0 + 65536 * b.getD 1 0 + 256 * b.getD 2 0 + b.getD 3 0

/-- token.ProgramKey (TokenkegQfeZyiNwAJbNbGKPFXCWuBvf9Ss623VQ5DA). -/
def tokenProgramKey : Bytes :=
  [6, 221, 246, 225, 215, 101, 161, 147, 217, 203, 225, 70, 206, 235, 121, 172,
   28, 180, 133, 237, 95, 91, 55, 145, 58, 140, 245, 133, 126, 255, 0, 169]

/-- token.AssociatedTokenAccountProgramKey (ATokenGPvbdGVxr1b2hvZbsiqW5xWH25efTNsLJA8knL). -/
def associatedTokenAccountProgramKey : Bytes :=
  [140, 151, 37, 143, 78, 36, 137, 241, 187, 61, 16, 41, 20, 142, 13, 131,
   11, 90, 19, 153, 218, 255, 16, 132, 4, 142, 123, 216, 219, 233, 248, 89]

/-- system.ProgramKey is the zero value of a Go 32-byte array: all zero bytes. -/
def systemProgramKey : Bytes := List.replicate 32 0

/-- system.RentSysVar (base58 decode of SysvarRent111111111111111111111111111111111). -/
def rentSysVar : Bytes :=
  [6, 167, 213, 23, 25, 44, 92, 81, 33, 140, 201, 76, 61, 74, 241, 127,
   88, 218, 238, 8, 155, 161, 253, 68, 227, 219, 217, 138, 0, 0, 0, 0]

/-- Modelled from the spec: the memo program key constant of the memo package,
whose defining file is not in the source snapshot. Its value is the canonical
memo program address (Memo1UhkJRfHyvLMcVucJwxXeuD728EqVDDwQDxFMNo); the parser
only compares program keys for equality. -/
def memoProgramKey : Bytes :=
  [5, 74, 83, 80, 248, 93, 200, 130, 214, 20, 165, 86, 114, 120, 138, 41,
   109, 223, 30, 171, 171, 208, 166, 6, 120, 136, 73, 50, 244, 238, 246, 160]

/-- solana.CompiledInstruction: a program index, account-table indices, and data. -/
structure CompiledInstruction where
  programIndex : Nat
  accounts : List Nat
  data : Bytes
deriving DecidableEq

/-- solana.Message, restricted to the fields the parser and decompilers read. -/
structure Message where
  accounts : List Bytes
  instructions : List CompiledInstruction
deriving DecidableEq

/-- solana.Transaction, restricted to the fields the parser reads. -/
structure Transaction where
  signatures : List Bytes
  message : Message
deriving DecidableEq

/-- Account-table lookup m.Accounts[i] (decoded messages have all indices in range). -/
def Message.account (m : Message) (i : Nat) : Bytes := m.accounts.getD i []

/-- Instruction lookup m.Instructions[i]. -/
def Message.instr (m : Message) (i : Nat) : CompiledInstruction :=
  m.instructions.getD i { programIndex := 0, accounts := [], data := [] }

/-- system.DecompiledCreateAccount. -/
structure DecompiledCreateAccount where
  funder : Bytes
  address : Bytes
  lamports : Nat
  size : Nat
  owner : Bytes
deriving DecidableEq

/-- system.DecompileCreateAccount: requires the system program, 2 accounts,
52 data bytes, and a (big-endian, as in the source) command word of 0. -/
def DecompileCreateAccount (m : Message) (index : Nat) : Option DecompiledCreateAccount :=
  if index ≥ m.instructions.length then none
  else
  let i := m.instr index
  if m.account i.programIndex ≠ systemProgramKey then none
  else if i.accounts.length ≠ 2 then none
  else if i.data.length ≠ 52 then none
  else if beUint32 i.data ≠ 0 then none
  else some
    { funder := m.account (i.accounts.getD 0 0)
      address := m.account (i.accounts.getD 1 0)
      lamports := leUint64 (i.data.drop 4)
      size := leUint64 (i.data.drop 12)
      owner := (i.data.drop 20).take 32 }

/-- token.DecompiledInitializeAccount. -/
structure DecompiledInitializeAccount where
  account : Bytes
  mint : Bytes
  owner : Bytes
deriving DecidableEq

/-- token.DecompileInitializeAccount: requires the token program, data exactly
the one command byte 1, 4 accounts, the rent sysvar at account 3. -/
def DecompileInitializeAccount (m : Message) (index : Nat) : Option DecompiledInitializeAccount :=
  if index ≥ m.instructions.length then none
  else
  let i := m.instr index
  if m.account i.programIndex ≠ tokenProgramKey then none
  else if i.data ≠ [1] then none
  else if i.accounts.length ≠ 4 then none
  else if m.account (i.accounts.getD 3 0) ≠ rentSysVar then none
  else some
    { account := m.account (i.accounts.getD 0 0)
      mint := m.account (i.accounts.getD 1 0)
      owner := m.account (i.accounts.getD 2 0) }

/-- token.AuthorityType values: MintTokens 0, FreezeAccount 1, AccountHolder 2,
CloseAccount 3. -/
def authorityTypeAccountHolder : Nat := 2

def authorityTypeCloseAccount : Nat := 3

/-- token.DecompiledSetAuthority; an absent new authority is the empty byte list
(a nil Go slice). -/
structure DecompiledSetAuthority where
  account : Bytes
  currentAuthority : Bytes
  newAuthority : Bytes
  type : Nat
deriving DecidableEq

/-- token.DecompileSetAuthority: requires the token program, 2 accounts, at
least 3 data bytes, command byte 6; a present flag byte of 0 forces length 3
and a flag byte of 1 forces length 35, exactly as the conditionals in the
source do. -/
def DecompileSetAuthority (m : Message) (index : Nat) : Option DecompiledSetAuthority :=
  if index ≥ m.instructions.length then none
  else
  let i := m.instr index
  if m.account i.programIndex ≠ tokenProgramKey then none
  else if i.accounts.length ≠ 2 then none
  else if i.data.length < 3 then none
  else if i.data.getD 0 0 ≠ 6 then none
  else if i.data.getD 2 0 = 0 ∧ i.data.length ≠ 3 then none
  else if i.data.getD 2 0 = 1 ∧ i.data.length ≠ 35 then none
  else some
    { account := m.account (i.accounts.getD 0 0)
      currentAuthority := m.account (i.accounts.getD 1 0)
      type := i.data.getD 1 0
      newAuthority := if i.data.getD 2 0 = 1 then (i.data.drop 3).take 32 else [] }

/-- token.DecompiledTransfer. -/
structure DecompiledTransfer where
  source : Bytes
  destination : Bytes
  owner : Bytes
  amount : Nat
deriving DecidableEq

/-- token.DecompileTransfer: requires the token program, nonempty data starting
with command byte 3, 3 accounts, 9 data bytes. -/
def DecompileTransfer (m : Message) (index : Nat) : Option DecompiledTransfer :=
  if index ≥ m.instructions.length then none
  else
  let i := m.instr index
  if m.account i.programIndex ≠ tokenProgramKey then none
  else if i.data = [] ∨ i.data.getD 0 0 ≠ 3 then none
  else if i.accounts.length ≠ 3 then none
  else if i.data.length ≠ 9 then none
  else some
    { source := m.account (i.accounts.getD 0 0)
      destination := m.account (i.accounts.getD 1 0)
      owner := m.account (i.accounts.getD 2 0)
      amount := leUint64 (i.data.drop 1) }

/-- token.DecompiledCloseAccount. -/
structure DecompiledCloseAccount where
  account : Bytes
  destination : Bytes
  owner : Bytes
deriving DecidableEq

/-- Modelled from the spec: token.DecompileCloseAccount (defining file missing
from the snapshot). CloseAccount has data exactly the command byte 9 and the
accounts (account, destination, owner). -/
def DecompileCloseAccount (m : Message) (index : Nat) : Option DecompiledCloseAccount :=
  if index ≥ m.instructions.length then none
  else
  let i := m.instr index
  if m.account i.programIndex ≠ tokenProgramKey then none
  else if i.data ≠ [9] then none
  else if i.accounts.length ≠ 3 then none
  else some
    { account := m.account (i.accounts.getD 0 0)
      destination := m.account (i.accounts.getD 1 0)
      owner := m.account (i.accounts.getD 2 0) }

/-- token.DecompiledCreateAssociatedAccount. -/
structure DecompiledCreateAssociatedAccount where
  subsidizer : Bytes
  address : Bytes
  owner : Bytes
  mint : Bytes
deriving DecidableEq

/-- Modelled from the spec: token.DecompileCreateAssociatedAccount (defining
file missing from the snapshot). CreateAssociatedAccount has empty data and the
7 accounts (subsidizer, associated address, wallet, mint, system program, token
program, rent sysvar). -/
def DecompileCreateAssociatedAccount (m : Message) (index : Nat) : Option DecompiledCreateAssociatedAccount :=
  if index ≥ m.instructions.length then none
  else
  let i := m.instr index
  if m.account i.programIndex ≠ associatedTokenAccountProgramKey then none
  else if i.data ≠ [] then none
  else if i.accounts.length ≠ 7 then none
  else if m.account (i.accounts.getD 4 0) ≠ systemProgramKey then none
  else if m.account (i.accounts.getD 5 0) ≠ tokenProgramKey then none
  else if m.account (i.accounts.getD 6 0) ≠ rentSysVar then none
  else some
    { subsidizer := m.account (i.accounts.getD 0 0)
      address := m.account (i.accounts.getD 1 0)
      owner := m.account (i.accounts.getD 2 0)
      mint := m.account (i.accounts.getD 3 0) }

/-- Modelled from the spec: token.GetCommand dispatches on the first data byte
of the instruction; ParseTransaction discards its error, leaving the zero
command value for empty data. -/
def GetCommand (m : Message) (index : Nat) : Nat :=
  (m.instr index).data.headD 0

/-- Modelled from the spec: memo.DecompileMemo yields the raw instruction data
unchanged, after checking the instruction belongs to the memo program. -/
def DecompileMemo (m : Message) (index : Nat) : Option Bytes :=
  if index ≥ m.instructions.length then none
  else if m.account (m.instr index).programIndex ≠ memoProgramKey then none
  else some (m.instr index).data

/-- Value of one character of the standard base64 alphabet. -/
def b64Val (c : Nat) : Option Nat :=
  if 65 ≤ c ∧ c ≤ 90 then some (c - 65)
  else if 97 ≤ c ∧ c ≤ 122 then some (c - 71)
  else if 48 ≤ c ∧ c ≤ 57 then some (c + 4)
  else if c = 43 then some 62
  else if c = 47 then some 63
  else none

/-- Modelled from the spec: standard base64 decoding with mandatory padding, as
base64.StdEncoding.DecodeString performs it, over the character codes of the
input string. -/
def base64Decode : Bytes → Option Bytes
  | [] => some []
  | c1 :: c2 :: c3 :: c4 :: rest =>
    match b64Val c1, b64Val c2 with
    | some v1, some v2 =>
      if c3 = 61 then
        if c4 = 61 ∧ rest = [] then some [v1 * 4 + v2 / 16] else none
      else
        match b64Val c3 with
        | some v3 =>
          if c4 = 61 then
            if rest = [] then some [v1 * 4 + v2 / 16, v2 % 16 * 16 + v3 / 4] else none
          else
            match b64Val c4 with
            | some v4 =>
              match base64Decode rest with
              | some bs =>
                some ((v1 * 4 + v2 / 16) :: (v2 % 16 * 16 + v3 / 4) :: (v3 % 4 * 64 + v4) :: bs)
              | none => none
            | none => none
        | none => none
    | _, _ => none
  | _ => none

/-- The agora memo: 32 packed bytes. -/
abbrev Memo := Bytes

def magicByte : Nat := 1

def transactionTypeEarn : Nat := 1

def transactionTypeSpend : Nat := 2

def transactionTypeP2P : Nat := 3

/-- Modelled from the spec: version field, bits 2 to 5 of byte 0. -/
def memoVersion (m : Memo) : Nat := m.getD 0 0 / 4 % 16

/-- Modelled from the spec: transaction type, bits 6 to 10 (two high bits of
byte 0 and three low bits of byte 1). -/
def memoTransactionType (m : Memo) : Nat := m.getD 0 0 / 64 + m.getD 1 0 % 8 * 4

/-- Modelled from the spec: app index, bits 11 to 26 packed little-endian. -/
def memoAppIndex (m : Memo) : Nat :=
  m.getD 1 0 / 8 + m.getD 2 0 * 32 + m.getD 3 0 % 4 * 8192

/-- Modelled from the spec: the 29-byte foreign key held in bits 27 upward; the
last byte carries only 6 significant bits. -/
def memoForeignKey (m : Memo) : Bytes :=
  ((List.range 28).map fun k => m.getD (k + 3) 0 / 4 + m.getD (k + 4) 0 % 4 * 64) ++
    [m.getD 31 0 / 4]

/-- Modelled from the spec: lenient validity requires the magic bits 01 and a
nonzero transaction type. -/
def IsValidMemo (m : Memo) : Bool :=
  m.getD 0 0 % 4 == magicByte && memoTransactionType m != 0

/-- Modelled from the spec: strict validity additionally bounds the version and
the transaction type by the known maxima. -/
def IsValidMemoStrict (m : Memo) : Bool :=
  IsValidMemo m && memoVersion m ≤ 1 && memoTransactionType m ≤ 3

/-- Modelled from the spec: MemoFromBase64String (defining file missing from
the snapshot) base64-decodes the memo string, interprets the 32 bytes, and
applies lenient or strict validity. -/
def MemoFromBase64String (s : Bytes) (strict : Bool) : Option Memo :=
  match base64Decode s with
  | none => none
  | some bs =>
    if bs.length ≠ 32 then none
    else if (if strict then IsValidMemoStrict bs else IsValidMemo bs) then some bs
    else none

/-- Modelled from the spec: the lower accept bound Go UTF-8 decoding imposes on
the second byte, depending on the first (224 and 240 exclude overlong
encodings). -/
def utf8AcceptLo (b0 : Nat) : Nat :=
  if b0 = 224 then 160 else if b0 = 240 then 144 else 128

/-- Modelled from the spec: the upper accept bound on the second byte (237
excludes the surrogate range, 244 the code points beyond the last one). -/
def utf8AcceptHi (b0 : Nat) : Nat :=
  if b0 = 237 then 159 else if b0 = 244 then 143 else 191

/-- Modelled from the spec: Go for-range decoding of a UTF-8 byte string,
fueled by the byte count. Each step yields one rune and consumes its encoding;
a byte that starts no acceptable encoding yields the replacement rune 65533
and is consumed alone, as in the Go runtime. -/
def utf8Go : Nat → Bytes → List Nat
  | 0, _ => []
  | _, [] => []
  | fuel + 1, b0 :: rest =>
    if b0 < 128 then b0 :: utf8Go fuel rest
    else if 194 ≤ b0 ∧ b0 ≤ 223 then
      match rest with
      | b1 :: rest2 =>
        if 128 ≤ b1 ∧ b1 ≤ 191 then
          ((b0 - 192) * 64 + (b1 - 128)) :: utf8Go fuel rest2
        else 65533 :: utf8Go fuel rest
      | [] => 65533 :: utf8Go fuel rest
    else if 224 ≤ b0 ∧ b0 ≤ 239 then
      match rest with
      | b1 :: b2 :: rest3 =>
        if (utf8AcceptLo b0 ≤ b1 ∧ b1 ≤ utf8AcceptHi b0) ∧ (128 ≤ b2 ∧ b2 ≤ 191) then
          ((b0 - 224) * 4096 + (b1 - 128) * 64 + (b2 - 128)) :: utf8Go fuel rest3
        else 65533 :: utf8Go fuel rest
      | _ => 65533 :: utf8Go fuel rest
    else if 240 ≤ b0 ∧ b0 ≤ 244 then
      match rest with
      | b1 :: b2 :: b3 :: rest4 =>
        if (utf8AcceptLo b0 ≤ b1 ∧ b1 ≤ utf8AcceptHi b0) ∧ (128 ≤ b2 ∧ b2 ≤ 191) ∧
            (128 ≤ b3 ∧ b3 ≤ 191) then
          ((b0 - 240) * 262144 + (b1 - 128) * 4096 + (b2 - 128) * 64 + (b3 - 128)) ::
            utf8Go fuel rest4
        else 65533 :: utf8Go fuel rest
      | _ => 65533 :: utf8Go fuel rest
    else 65533 :: utf8Go fuel rest

/-- Modelled from the spec: the rune sequence Go's for-range loop yields for a
byte string. -/
def utf8DecodeGo (s : Bytes) : List Nat := utf8Go s.length s

/-- Modelled from the spec: the Unicode letter categories (Lu, Ll, Lt, Lm, Lo)
of the Go unicode package, as closed code-point ranges generated from the
Unicode character database. -/
def letterRanges : List (Nat × Nat) :=
  [
   (65, 90), (97, 122), (170, 170), (181, 181),
   (186, 186), (192, 214), (216, 246), (248, 705),
   (710, 721), (736, 740), (748, 748), (750, 750),
   (880, 884), (886, 887), (890, 893), (895, 895),
   (902, 902), (904, 906), (908, 908), (910, 929),
   (931, 1013), (1015, 1153), (1162, 1327), (1329, 1366),
   (1369, 1369), (1376, 1416), (1488, 1514), (1519, 1522),
   (1568, 1610), (1646, 1647), (1649, 1747), (1749, 1749),
   (1765, 1766), (1774, 1775), (1786, 1788), (1791, 1791),
   (1808, 1808), (1810, 1839), (1869, 1957), (1969, 1969),
   (1994, 2026), (2036, 2037), (2042, 2042), (2048, 2069),
   (2074, 2074), (2084, 2084), (2088, 2088), (2112, 2136),
   (2144, 2154), (2160, 2183), (2185, 2190), (2208, 2249),
   (2308, 2361), (2365, 2365), (2384, 2384), (2392, 2401),
   (2417, 2432), (2437, 2444), (2447, 2448), (2451, 2472),
   (2474, 2480), (2482, 2482), (2486, 2489), (2493, 2493),
   (2510, 2510), (2524, 2525), (2527, 2529), (2544, 2545),
   (2556, 2556), (2565, 2570), (2575, 2576), (2579, 2600),
   (2602, 2608), (2610, 2611), (2613, 2614), (2616, 2617),
   (2649, 2652), (2654, 2654), (2674, 2676), (2693, 2701),
   (2703, 2705), (2707, 2728), (2730, 2736), (2738, 2739),
   (2741, 2745), (2749, 2749), (2768, 2768), (2784, 2785),
   (2809, 2809), (2821, 2828), (2831, 2832), (2835, 2856),
   (2858, 2864), (2866, 2867), (2869, 2873), (2877, 2877),
   (2908, 2909), (2911, 2913), (2929, 2929), (2947, 2947),
   (2949, 2954), (2958, 2960), (2962, 2965), (2969, 2970),
   (2972, 2972), (2974, 2975), (2979, 2980), (2984, 2986),
   (2990, 3001), (3024, 3024), (3077, 3084), (3086, 3088),
   (3090, 3112), (3114, 3129), (3133, 3133), (3160, 3162),
   (3165, 3165), (3168, 3169), (3200, 3200), (3205, 3212),
   (3214, 3216), (3218, 3240), (3242, 3251), (3253, 3257),
   (3261, 3261), (3293, 3294), (3296, 3297), (3313, 3314),
   (3332, 3340), (3342, 3344), (3346, 3386), (3389, 3389),
   (3406, 3406), (3412, 3414), (3423, 3425), (3450, 3455),
   (3461, 3478), (3482, 3505), (3507, 3515), (3517, 3517),
   (3520, 3526), (3585, 3632), (3634, 3635), (3648, 3654),
   (3713, 3714), (3716, 3716), (3718, 3722), (3724, 3747),
   (3749, 3749), (3751, 3760), (3762, 3763), (3773, 3773),
   (3776, 3780), (3782, 3782), (3804, 3807), (3840, 3840),
   (3904, 3911), (3913, 3948), (3976, 3980), (4096, 4138),
   (4159, 4159), (4176, 4181), (4186, 4189), (4193, 4193),
   (4197, 4198), (4206, 4208), (4213, 4225), (4238, 4238),
   (4256, 4293), (4295, 4295), (4301, 4301), (4304, 4346),
   (4348, 4680), (4682, 4685), (4688, 4694), (4696, 4696),
   (4698, 4701), (4704, 4744), (4746, 4749), (4752, 4784),
   (4786, 4789), (4792, 4798), (4800, 4800), (4802, 4805),
   (4808, 4822), (4824, 4880), (4882, 4885), (4888, 4954),
   (4992, 5007), (5024, 5109), (5112, 5117), (5121, 5740),
   (5743, 5759), (5761, 5786), (5792, 5866), (5873, 5880),
   (5888, 5905), (5919, 5937), (5952, 5969), (5984, 5996),
   (5998, 6000), (6016, 6067), (6103, 6103), (6108, 6108),
   (6176, 6264), (6272, 6276), (6279, 6312), (6314, 6314),
   (6320, 6389), (6400, 6430), (6480, 6509), (6512, 6516),
   (6528, 6571), (6576, 6601), (6656, 6678), (6688, 6740),
   (6823, 6823), (6917, 6963), (6981, 6988), (7043, 7072),
   (7086, 7087), (7098, 7141), (7168, 7203), (7245, 7247),
   (7258, 7293), (7296, 7304), (7312, 7354), (7357, 7359),
   (7401, 7404), (7406, 7411), (7413, 7414), (7418, 7418),
   (7424, 7615), (7680, 7957), (7960, 7965), (7968, 8005),
   (8008, 8013), (8016, 8023), (8025, 8025), (8027, 8027),
   (8029, 8029), (8031, 8061), (8064, 8116), (8118, 8124),
   (8126, 8126), (8130, 8132), (8134, 8140), (8144, 8147),
   (8150, 8155), (8160, 8172), (8178, 8180), (8182, 8188),
   (8305, 8305), (8319, 8319), (8336, 8348), (8450, 8450),
   (8455, 8455), (8458, 8467), (8469, 8469), (8473, 8477),
   (8484, 8484), (8486, 8486), (8488, 8488), (8490, 8493),
   (8495, 8505), (8508, 8511), (8517, 8521), (8526, 8526),
   (8579, 8580), (11264, 11492), (11499, 11502), (11506, 11507),
   (11520, 11557), (11559, 11559), (11565, 11565), (11568, 11623),
   (11631, 11631), (11648, 11670), (11680, 11686), (11688, 11694),
   (11696, 11702), (11704, 11710), (11712, 11718), (11720, 11726),
   (11728, 11734), (11736, 11742), (11823, 11823), (12293, 12294),
   (12337, 12341), (12347, 12348), (12353, 12438), (12445, 12447),
   (12449, 12538), (12540, 12543), (12549, 12591), (12593, 12686),
   (12704, 12735), (12784, 12799), (13312, 19903), (19968, 42124),
   (42192, 42237), (42240, 42508), (42512, 42527), (42538, 42539),
   (42560, 42606), (42623, 42653), (42656, 42725), (42775, 42783),
   (42786, 42888), (42891, 42954), (42960, 42961), (42963, 42963),
   (42965, 42969), (42994, 43009), (43011, 43013), (43015, 43018),
   (43020, 43042), (43072, 43123), (43138, 43187), (43250, 43255),
   (43259, 43259), (43261, 43262), (43274, 43301), (43312, 43334),
   (43360, 43388), (43396, 43442), (43471, 43471), (43488, 43492),
   (43494, 43503), (43514, 43518), (43520, 43560), (43584, 43586),
   (43588, 43595), (43616, 43638), (43642, 43642), (43646, 43695),
   (43697, 43697), (43701, 43702), (43705, 43709), (43712, 43712),
   (43714, 43714), (43739, 43741), (43744, 43754), (43762, 43764),
   (43777, 43782), (43785, 43790), (43793, 43798), (43808, 43814),
   (43816, 43822), (43824, 43866), (43868, 43881), (43888, 44002),
   (44032, 55203), (55216, 55238), (55243, 55291), (63744, 64109),
   (64112, 64217), (64256, 64262), (64275, 64279), (64285, 64285),
   (64287, 64296), (64298, 64310), (64312, 64316), (64318, 64318),
   (64320, 64321), (64323, 64324), (64326, 64433), (64467, 64829),
   (64848, 64911), (64914, 64967), (65008, 65019), (65136, 65140),
   (65142, 65276), (65313, 65338), (65345, 65370), (65382, 65470),
   (65474, 65479), (65482, 65487), (65490, 65495), (65498, 65500),
   (65536, 65547), (65549, 65574), (65576, 65594), (65596, 65597),
   (65599, 65613), (65616, 65629), (65664, 65786), (66176, 66204),
   (66208, 66256), (66304, 66335), (66349, 66368), (66370, 66377),
   (66384, 66421), (66432, 66461), (66464, 66499), (66504, 66511),
   (66560, 66717), (66736, 66771), (66776, 66811), (66816, 66855),
   (66864, 66915), (66928, 66938), (66940, 66954), (66956, 66962),
   (66964, 66965), (66967, 66977), (66979, 66993), (66995, 67001),
   (67003, 67004), (67072, 67382), (67392, 67413), (67424, 67431),
   (67456, 67461), (67463, 67504), (67506, 67514), (67584, 67589),
   (67592, 67592), (67594, 67637), (67639, 67640), (67644, 67644),
   (67647, 67669), (67680, 67702), (67712, 67742), (67808, 67826),
   (67828, 67829), (67840, 67861), (67872, 67897), (67968, 68023),
   (68030, 68031), (68096, 68096), (68112, 68115), (68117, 68119),
   (68121, 68149), (68192, 68220), (68224, 68252), (68288, 68295),
   (68297, 68324), (68352, 68405), (68416, 68437), (68448, 68466),
   (68480, 68497), (68608, 68680), (68736, 68786), (68800, 68850),
   (68864, 68899), (69248, 69289), (69296, 69297), (69376, 69404),
   (69415, 69415), (69424, 69445), (69488, 69505), (69552, 69572),
   (69600, 69622), (69635, 69687), (69745, 69746), (69749, 69749),
   (69763, 69807), (69840, 69864), (69891, 69926), (69956, 69956),
   (69959, 69959), (69968, 70002), (70006, 70006), (70019, 70066),
   (70081, 70084), (70106, 70106), (70108, 70108), (70144, 70161),
   (70163, 70187), (70272, 70278), (70280, 70280), (70282, 70285),
   (70287, 70301), (70303, 70312), (70320, 70366), (70405, 70412),
   (70415, 70416), (70419, 70440), (70442, 70448), (70450, 70451),
   (70453, 70457), (70461, 70461), (70480, 70480), (70493, 70497),
   (70656, 70708), (70727, 70730), (70751, 70753), (70784, 70831),
   (70852, 70853), (70855, 70855), (71040, 71086), (71128, 71131),
   (71168, 71215), (71236, 71236), (71296, 71338), (71352, 71352),
   (71424, 71450), (71488, 71494), (71680, 71723), (71840, 71903),
   (71935, 71942), (71945, 71945), (71948, 71955), (71957, 71958),
   (71960, 71983), (71999, 71999), (72001, 72001), (72096, 72103),
   (72106, 72144), (72161, 72161), (72163, 72163), (72192, 72192),
   (72203, 72242), (72250, 72250), (72272, 72272), (72284, 72329),
   (72349, 72349), (72368, 72440), (72704, 72712), (72714, 72750),
   (72768, 72768), (72818, 72847), (72960, 72966), (72968, 72969),
   (72971, 73008), (73030, 73030), (73056, 73061), (73063, 73064),
   (73066, 73097), (73112, 73112), (73440, 73458), (73648, 73648),
   (73728, 74649), (74880, 75075), (77712, 77808), (77824, 78894),
   (82944, 83526), (92160, 92728), (92736, 92766), (92784, 92862),
   (92880, 92909), (92928, 92975), (92992, 92995), (93027, 93047),
   (93053, 93071), (93760, 93823), (93952, 94026), (94032, 94032),
   (94099, 94111), (94176, 94177), (94179, 94179), (94208, 100343),
   (100352, 101589), (101632, 101640), (110576, 110579), (110581, 110587),
   (110589, 110590), (110592, 110882), (110928, 110930), (110948, 110951),
   (110960, 111355), (113664, 113770), (113776, 113788), (113792, 113800),
   (113808, 113817), (119808, 119892), (119894, 119964), (119966, 119967),
   (119970, 119970), (119973, 119974), (119977, 119980), (119982, 119993),
   (119995, 119995), (119997, 120003), (120005, 120069), (120071, 120074),
   (120077, 120084), (120086, 120092), (120094, 120121), (120123, 120126),
   (120128, 120132), (120134, 120134), (120138, 120144), (120146, 120485),
   (120488, 120512), (120514, 120538), (120540, 120570), (120572, 120596),
   (120598, 120628), (120630, 120654), (120656, 120686), (120688, 120712),
   (120714, 120744), (120746, 120770), (120772, 120779), (122624, 122654),
   (123136, 123180), (123191, 123197), (123214, 123214), (123536, 123565),
   (123584, 123627), (124896, 124902), (124904, 124907), (124909, 124910),
   (124912, 124926), (124928, 125124), (125184, 125251), (125259, 125259),
   (126464, 126467), (126469, 126495), (126497, 126498), (126500, 126500),
   (126503, 126503), (126505, 126514), (126516, 126519), (126521, 126521),
   (126523, 126523), (126530, 126530), (126535, 126535), (126537, 126537),
   (126539, 126539), (126541, 126543), (126545, 126546), (126548, 126548),
   (126551, 126551), (126553, 126553), (126555, 126555), (126557, 126557),
   (126559, 126559), (126561, 126562), (126564, 126564), (126567, 126570),
   (126572, 126578), (126580, 126583), (126585, 126588), (126590, 126590),
   (126592, 126601), (126603, 126619), (126625, 126627), (126629, 126633),
   (126635, 126651), (131072, 173791), (173824, 177976), (177984, 178205),
   (178208, 183969), (183984, 191456), (194560, 195101), (196608, 201546)]

/-- Modelled from the spec: the Unicode decimal-digit category (Nd) of the Go
unicode package, as closed code-point ranges generated from the Unicode
character database. -/
def digitRanges : List (Nat × Nat) :=
  [
   (48, 57), (1632, 1641), (1776, 1785), (1984, 1993),
   (2406, 2415), (2534, 2543), (2662, 2671), (2790, 2799),
   (2918, 2927), (3046, 3055), (3174, 3183), (3302, 3311),
   (3430, 3439), (3558, 3567), (3664, 3673), (3792, 3801),
   (3872, 3881), (4160, 4169), (4240, 4249), (6112, 6121),
   (6160, 6169), (6470, 6479), (6608, 6617), (6784, 6793),
   (6800, 6809), (6992, 7001), (7088, 7097), (7232, 7241),
   (7248, 7257), (42528, 42537), (43216, 43225), (43264, 43273),
   (43472, 43481), (43504, 43513), (43600, 43609), (44016, 44025),
   (65296, 65305), (66720, 66729), (68912, 68921), (69734, 69743),
   (69872, 69881), (69942, 69951), (70096, 70105), (70384, 70393),
   (70736, 70745), (70864, 70873), (71248, 71257), (71360, 71369),
   (71472, 71481), (71904, 71913), (72016, 72025), (72784, 72793),
   (73040, 73049), (73120, 73129), (92768, 92777), (92864, 92873),
   (93008, 93017), (120782, 120831), (123200, 123209), (123632, 123641),
   (125264, 125273), (130032, 130041)]

/-- Modelled from the spec: unicode.IsLetter of the Go standard library, over
a decoded code point. -/
def goIsLetter (c : Nat) : Bool := letterRanges.any fun p => decide (p.1 ≤ c ∧ c ≤ p.2)

/-- Modelled from the spec: unicode.IsDigit of the Go standard library, over a
decoded code point. -/
def goIsDigit (c : Nat) : Bool := digitRanges.any fun p => decide (p.1 ≤ c ∧ c ≤ p.2)

/-- kin.IsValidAppID: the Go byte length must be 3 or 4, and every rune of the
for-range UTF-8 decoding must be a Unicode letter or digit. -/
def IsValidAppID (appID : Bytes) : Bool :=
  if appID.length < 3 || appID.length > 4 then false
  else (utf8DecodeGo appID).all fun c => goIsLetter c || goIsDigit c

/-- strings.Split on a single-byte separator, over byte strings. -/
def splitOnByte (sep : Nat) : Bytes → List Bytes
  | [] => [[]]
  | c :: rest =>
    let r := splitOnByte sep rest
    if c = sep then [] :: r else (c :: r.headD []) :: r.tail

/-- kin.AppIDFromTextMemo: the memo must split on the dash byte 45 into at
least two parts, the first part must be the single byte of the digit 1, and the
second part must be a valid app id; that second part is returned. -/
def AppIDFromTextMemo (memo : Bytes) : Option Bytes :=
  let parts := splitOnByte 45 memo
  if parts.length < 2 then none
  else if parts.getD 0 [] ≠ [49] then none
  else if ¬ IsValidAppID (parts.getD 1 []) then none
  else some (parts.getD 1 [])

/-- solana.AccountInfo, restricted to the fields the nonce extraction reads. -/
structure AccountInfo where
  owner : Bytes
  data : Bytes
deriving DecidableEq

/-- system.GetNonceValueFromAccount: the data must be exactly 80 bytes and the
owner the system program; the blockhash value is the 32 bytes at offset
4 + 4 + 32. -/
def GetNonceValueFromAccount (info : AccountInfo) : Option Bytes :=
  if info.data.length ≠ 80 then none
  else if info.owner ≠ systemProgramKey then none
  else some ((info.data.drop 40).take 32)

/-- token.Account (the on-ledger token account state); a nil Go byte slice is
the empty list. -/
structure Account where
  mint : Bytes
  owner : Bytes
  amount : Nat
  delegate : Bytes
  state : Nat
  isNative : Option Nat
  delegatedAmount : Nat
  closeAuthority : Bytes
deriving DecidableEq

/-- The Go copy builtin writing src into b starting at offset off: it writes
min(src length, space after off) bytes and leaves the rest of b unchanged. -/
def writeBytesAt (b : Bytes) (off : Nat) (src : Bytes) : Bytes :=
  b.take off ++ src.take (b.length - off) ++ b.drop (off + src.length)

/-- token.Account.Marshal: writes the fields into a zeroed 165-byte buffer at
the running offsets of the source (each optional field advances the offset by
its full width whether present or not). -/
def Account.Marshal (a : Account) : Bytes :=
  let b := List.replicate 165 0
  let b := writeBytesAt b 0 a.mint
  let b := writeBytesAt b 32 a.owner
  let b := writeBytesAt b 64 (leUint64Bytes a.amount)
  let b := if a.delegate.length > 0 then
      writeBytesAt (writeBytesAt b 72 [1]) 76 a.delegate
    else b
  let b := writeBytesAt b 108 [a.state % 256]
  let b := match a.isNative with
    | some v => writeBytesAt (writeBytesAt b 109 [1]) 113 (leUint64Bytes v)
    | none => b
  let b := writeBytesAt b 121 (leUint64Bytes a.delegatedAmount)
  if a.closeAuthority.length > 0 then
    writeBytesAt (writeBytesAt b 129 [1]) 133 a.closeAuthority
  else b

/-- token.Account.Unmarshal on a fresh Account value: it only rejects inputs
whose length differs from 165, and for each optional field it consults only
the first byte of the 4-byte discriminant. -/
def Account.Unmarshal (b : Bytes) : Option Account :=
  if b.length ≠ 165 then none
  else some
    { mint := b.take 32
      owner := (b.drop 32).take 32
      amount := leUint64 (b.drop 64)
      delegate := if b.getD 72 0 = 1 then (b.drop 76).take 32 else []
      state := b.getD 108 0
      isNative := if b.getD 109 0 = 1 then some (leUint64 (b.drop 113)) else none
      delegatedAmount := leUint64 (b.drop 121)
      closeAuthority := if b.getD 129 0 = 1 then (b.drop 133).take 32 else [] }

/-- kin.Creation: a recorded account creation; the close authority pointer is
never nil at any construction site of the source, so it is a plain field. -/
structure Creation where
  create : Option DecompiledCreateAccount := none
  initAccount : Option DecompiledInitializeAccount := none
  createAssoc : Option DecompiledCreateAssociatedAccount := none
  closeAuthority : DecompiledSetAuthority
  accountHolder : Option DecompiledSetAuthority := none
deriving DecidableEq

/-- kin.Region. -/
structure Region where
  memoData : Bytes := []
  memo : Option Memo := none
  creations : List Creation := []
  transfers : List DecompiledTransfer := []
  closures : List DecompiledCloseAccount := []
deriving DecidableEq

def Region.addCreation (r : Region) (c : Creation) : Region :=
  { r with creations := r.creations ++ [c] }

def Region.addTransfer (r : Region) (t : DecompiledTransfer) : Region :=
  { r with transfers := r.transfers ++ [t] }

def Region.addClosure (r : Region) (c : DecompiledCloseAccount) : Region :=
  { r with closures := r.closures ++ [c] }

/-- kin.Tx. -/
structure Tx where
  appIndex : Nat := 0
  appID : Bytes := []
  regions : List Region := []
deriving DecidableEq

/-- Modelled from the spec: the invoice list is opaque to the parser, which
only reads the invoice count and the canonical SHA-224 hash of the
protobuf-serialized list; the hash is carried as an opaque 28-byte value. -/
structure InvoiceList where
  invoiceCount : Nat
  hash : Bytes
deriving DecidableEq

/-- One constructor per distinct error return site of ParseTransaction. -/
inductive ParseError where
  | noInstructions
  | noSignatures
  | invalidMemo (i : Nat)
  | invalidCreateAccount (i : Nat)
  | createAccountWrongOwner
  | createAccountWrongSize
  | missingInitializeAccount
  | invalidInitializeAccount
  | initializeAccountMismatch
  | missingCloseAuthority
  | invalidCloseAuthority
  | closeAuthorityWrongType
  | closeAuthorityWrongAccount
  | accountHolderWrongType
  | accountHolderWrongAccount
  | invalidCreateAssoc
  | invalidTransfer (i : Nat)
  | subsidizerAsSource
  | invalidCloseAccount (i : Nat)
  | unsupportedInstruction (i : Nat)
  | invalidInstructionType (i : Nat)
  | closeAuthorityWrongNewAuthority
  | createWithoutCreateInstruction
  | multipleAppIDs
  | multipleAppIndexes
  | mixedTransactionTypes
  | invoiceCountMismatch (invoices transfers region : Nat)
  | invoiceRegionMatchCount (n : Nat)
deriving DecidableEq

/-- kin.isMemo: the instruction belongs to the memo program. -/
def isMemo (tx : Transaction) (i : Nat) : Bool :=
  tx.message.account (tx.message.instr i).programIndex == memoProgramKey

/-- kin.isSystem. -/
def isSystem (tx : Transaction) (i : Nat) : Bool :=
  tx.message.account (tx.message.instr i).programIndex == systemProgramKey

/-- kin.isSPL. -/
def isSPL (tx : Transaction) (i : Nat) : Bool :=
  tx.message.account (tx.message.instr i).programIndex == tokenProgramKey

/-- kin.isSPLAssoc. -/
def isSPLAssoc (tx : Transaction) (i : Nat) : Bool :=
  tx.message.account (tx.message.instr i).programIndex == associatedTokenAccountProgramKey

/-- Outcome of handling the instruction at the loop head: a fatal error, the
loop break after a creation ending the instruction list, continuation at a
later index with the current region updated, or a fresh region after a memo. -/
inductive StepRes where
  | err (e : ParseError)
  | stop (r : Region)
  | cont (next : Nat) (r : Region)
  | newRegion (next : Nat) (r : Region)
deriving DecidableEq

/-- One iteration of the instruction walk of ParseTransaction, translated
branch by branch; the in-loop cursor increments of the source become the
explicit next index of the result. -/
def walkStep (tx : Transaction) (i : Nat) (cur : Region) : StepRes :=
  if isMemo tx i then
    match DecompileMemo tx.message i with
    | none => .err (.invalidMemo i)
    | some d => .newRegion (i + 1) { memoData := d }
  else if isSystem tx i then
    match DecompileCreateAccount tx.message i with
    | none => .err (.invalidCreateAccount i)
    | some creation =>
      if creation.owner ≠ tokenProgramKey then .err .createAccountWrongOwner
      else if creation.size ≠ 165 then .err .createAccountWrongSize
      else if i + 1 = tx.message.instructions.length then .err .missingInitializeAccount
      else match DecompileInitializeAccount tx.message (i + 1) with
      | none => .err .invalidInitializeAccount
      | some ia =>
        if creation.address ≠ ia.account then .err .initializeAccountMismatch
        else if i + 2 = tx.message.instructions.length then .err .missingCloseAuthority
        else match DecompileSetAuthority tx.message (i + 2) with
        | none => .err .invalidCloseAuthority
        | some closeAuthority =>
          if closeAuthority.type ≠ authorityTypeCloseAccount then .err .closeAuthorityWrongType
          else if closeAuthority.account ≠ creation.address then .err .closeAuthorityWrongAccount
          else
            let c : Creation :=
              { create := some creation, initAccount := some ia, closeAuthority := closeAuthority }
            if i + 3 = tx.message.instructions.length then .stop (cur.addCreation c)
            else match DecompileSetAuthority tx.message (i + 3) with
            | none => .cont (i + 3) (cur.addCreation c)
            | some accountHolder =>
              if accountHolder.type ≠ authorityTypeAccountHolder then .err .accountHolderWrongType
              else if accountHolder.account ≠ creation.address then .err .accountHolderWrongAccount
              else .cont (i + 4) (cur.addCreation { c with accountHolder := some accountHolder })
  else if isSPLAssoc tx i then
    match DecompileCreateAssociatedAccount tx.message i with
    | none => .err .invalidCreateAssoc
    | some create =>
      if i + 1 = tx.message.instructions.length then .err .missingCloseAuthority
      else match DecompileSetAuthority tx.message (i + 1) with
      | none => .err .invalidCloseAuthority
      | some closeAuthority =>
        if closeAuthority.type ≠ authorityTypeCloseAccount then .err .closeAuthorityWrongType
        else if closeAuthority.account ≠ create.address then .err .closeAuthorityWrongAccount
        else .cont (i + 2)
          (cur.addCreation { createAssoc := some create, closeAuthority := closeAuthority })
  else if isSPL tx i then
    if GetCommand tx.message i = 3 then
      match DecompileTransfer tx.message i with
      | none => .err (.invalidTransfer i)
      | some transfer =>
        if transfer.owner = tx.message.account 0 then .err .subsidizerAsSource
        else .cont (i + 1) (cur.addTransfer transfer)
    else if GetCommand tx.message i = 9 then
      match DecompileCloseAccount tx.message i with
      | none => .err (.invalidCloseAccount i)
      | some closure => .cont (i + 1) (cur.addClosure closure)
    else .err (.unsupportedInstruction i)
  else .err (.invalidInstructionType i)

/-- The instruction walk, fueled by the count of remaining instructions; the
result is the list of regions in order, the passed region first. -/
def walkGo (tx : Transaction) : Nat → Nat → Region → Except ParseError (List Region)
  | 0, _, cur => .ok [cur]
  | fuel + 1, i, cur =>
    if i < tx.message.instructions.length then
      match walkStep tx i cur with
      | .err e => .error e
      | .stop r => .ok [r]
      | .cont j r => walkGo tx fuel j r
      | .newRegion j r => (walkGo tx fuel j r).map (cur :: ·)
    else .ok [cur]

/-- The instruction walk of ParseTransaction from index i with the current
region cur. -/
def parseWalk (tx : Transaction) (i : Nat) (cur : Region) : Except ParseError (List Region) :=
  walkGo tx (tx.message.instructions.length - i) i cur

/-- The close-authority consistency check of the post pass, for one creation. -/
def checkCreation (c : Creation) : Option ParseError :=
  match c.createAssoc with
  | some ca =>
    if ca.subsidizer ≠ c.closeAuthority.newAuthority then some .closeAuthorityWrongNewAuthority
    else none
  | none =>
    match c.create with
    | some cr =>
      if cr.funder ≠ c.closeAuthority.newAuthority then some .closeAuthorityWrongNewAuthority
      else none
    | none => some .createWithoutCreateInstruction

/-- The close-authority consistency check over the creations of one region. -/
def checkCreations : List Creation → Option ParseError
  | [] => none
  | c :: rest =>
    match checkCreation c with
    | some e => some e
    | none => checkCreations rest

/-- The running state of the post pass over regions. -/
structure PostState where
  appIndex : Nat := 0
  appID : Bytes := []
  hasEarn : Bool := false
  hasSpend : Bool := false
  hasP2P : Bool := false
  refCount : Nat := 0
deriving DecidableEq

/-- The post pass of ParseTransaction on one region: creation consistency, then
memo extraction (agora memo first, text memo as fallback), app index and app id
coherence, and invoice matching. -/
def processRegion (il : Option InvoiceList) (ridx : Nat) (r : Region) (st : PostState) :
    Except ParseError (Region × PostState) :=
  match checkCreations r.creations with
  | some e => .error e
  | none =>
    if r.memoData.length = 0 then .ok (r, st)
    else match MemoFromBase64String r.memoData false with
    | none =>
      match AppIDFromTextMemo r.memoData with
      | some appID =>
        if st.appID = [] then .ok (r, { st with appID := appID })
        else if st.appID ≠ appID then .error .multipleAppIDs
        else .ok (r, st)
      | none => .ok (r, st)
    | some m =>
      let r1 := { r with memo := some m }
      let st1 := { st with
        hasEarn := st.hasEarn || (memoTransactionType m == transactionTypeEarn),
        hasSpend := st.hasSpend || (memoTransactionType m == transactionTypeSpend),
        hasP2P := st.hasP2P || (memoTransactionType m == transactionTypeP2P) }
      if st1.appIndex > 0 ∧ memoAppIndex m ≠ st1.appIndex then .error .multipleAppIndexes
      else
        let st2 := if st1.appIndex = 0 then { st1 with appIndex := memoAppIndex m } else st1
        match il with
        | none => .ok (r1, st2)
        | some ilv =>
          let fk := memoForeignKey m
          if fk.take 28 = ilv.hash ∧ fk.getD 28 0 = 0 then
            let st3 := { st2 with refCount := st2.refCount + 1 }
            if ilv.invoiceCount ≠ r.transfers.length then
              .error (.invoiceCountMismatch ilv.invoiceCount r.transfers.length ridx)
            else .ok (r1, st3)
          else .ok (r1, st2)

/-- The post pass over all regions in order, threading the state. -/
def processRegions (il : Option InvoiceList) :
    Nat → List Region → PostState → Except ParseError (List Region × PostState)
  | _, [], st => .ok ([], st)
  | ridx, r :: rest, st =>
    match processRegion il ridx r st with
    | .error e => .error e
    | .ok (r1, st1) =>
      match processRegions il (ridx + 1) rest st1 with
      | .error e => .error e
      | .ok (rs, st2) => .ok (r1 :: rs, st2)

/-- kin.ParseTransaction: preconditions, the instruction walk, the per-region
post pass, the earn/spend/p2p exclusivity check, and the invoice match count
check, in the order of the source. -/
def ParseTransaction (tx : Transaction) (il : Option InvoiceList) : Except ParseError Tx :=
  if tx.message.instructions.length = 0 then .error .noInstructions
  else if tx.signatures.length = 0 then .error .noSignatures
  else match parseWalk tx 0 {} with
  | .error e => .error e
  | .ok rs =>
    match processRegions il 0 rs {} with
    | .error e => .error e
    | .ok (rs1, st) =>
      if st.hasEarn && (st.hasSpend || st.hasP2P) then .error .mixedTransactionTypes
      else if il.isSome ∧ st.refCount ≠ 1 then .error (.invoiceRegionMatchCount st.refCount)
      else .ok { appIndex := st.appIndex, appID := st.appID, regions := rs1 }

/-- A token SetAuthority instruction whose present-flag byte is 2: the data has
length 3 and is accepted by the decompiler. -/
def setAuthorityFlag2Msg : Message :=
  { accounts := [tokenProgramKey, List.replicate 32 6, List.replicate 32 7]
    instructions := [{ programIndex := 0, accounts := [1, 2], data := [6, 3, 2] }] }

/-- A token SetAuthority instruction with present flag 1 and a 32-byte new
authority. -/
def setAuthorityFlag1Msg : Message :=
  { accounts := [tokenProgramKey, List.replicate 32 6, List.replicate 32 7]
    instructions :=
      [{ programIndex := 0, accounts := [1, 2],
         data := [6, 3, 1] ++ List.replicate 32 9 }] }

/-- The conditions C1 states for a system-program instruction the parse
succeeds past: a CreateAccount assigning the token program as owner with size
exactly 165, an InitializeAccount of the created address right after it, a
SetAuthority of type CloseAccount on that address after that, and, when the
following instruction decompiles as a SetAuthority at all, that it is of type
AccountHolder on the same address. -/
def SysCreationCond (tx : Transaction) (j : Nat) : Prop :=
  ∃ ca ia sa, DecompileCreateAccount tx.message j = some ca ∧
    ca.owner = tokenProgramKey ∧ ca.size = 165 ∧
    DecompileInitializeAccount tx.message (j + 1) = some ia ∧ ia.account = ca.address ∧
    DecompileSetAuthority tx.message (j + 2) = some sa ∧
    sa.type = authorityTypeCloseAccount ∧ sa.account = ca.address ∧
    (∀ ah, DecompileSetAuthority tx.message (j + 3) = some ah →
      ah.type = authorityTypeAccountHolder ∧ ah.account = ca.address)

/-- The conditions C1 states for an associated-token-program instruction the
parse succeeds past: a CreateAssociatedAccount immediately followed by a
SetAuthority of type CloseAccount on the created address. -/
def AssocCreationCond (tx : Transaction) (j : Nat) : Prop :=
  ∃ ca sa, DecompileCreateAssociatedAccount tx.message j = some ca ∧
    DecompileSetAuthority tx.message (j + 1) = some sa ∧
    sa.type = authorityTypeCloseAccount ∧ sa.account = ca.address

/-- Every index in the interval is a non-memo instruction satisfying the
creation conditions of its program class. -/
def CondBelow (tx : Transaction) (i j : Nat) : Prop :=
  ∀ k, i ≤ k → k < j →
    (isSystem tx k = true → SysCreationCond tx k) ∧
    (isSPLAssoc tx k = true → AssocCreationCond tx k) ∧
    isMemo tx k = false

/-- The errors produced by the post pass and the final checks, as opposed to
the instruction walk. -/
def isPostError : ParseError → Bool
  | .closeAuthorityWrongNewAuthority => true
  | .createWithoutCreateInstruction => true
  | .multipleAppIDs => true
  | .multipleAppIndexes => true
  | .mixedTransactionTypes => true
  | .invoiceCountMismatch _ _ _ => true
  | .invoiceRegionMatchCount _ => true
  | _ => false

/-- What each possible outcome of walkStep certifies. -/
def StepProps (tx : Transaction) (i : Nat) (cur : Region) : StepRes → Prop
  | .err e => isPostError e = false
  | .stop r => i + 3 = tx.message.instructions.length ∧ CondBelow tx i (i + 3) ∧
      r.memoData = cur.memoData ∧ r.memo = cur.memo
  | .cont j r => (i + 1 ≤ j ∧ j ≤ tx.message.instructions.length) ∧ CondBelow tx i j ∧
      r.memoData = cur.memoData ∧ r.memo = cur.memo
  | .newRegion j r => j = i + 1 ∧ isMemo tx i = true ∧
      (∃ d, DecompileMemo tx.message i = some d ∧
        r = { memoData := d, memo := none, creations := [], transfers := [], closures := [] })

/-- A region with the memo field cleared; the instruction walk produces regions
with no memo set, and the post pass only ever changes that field. -/
def stripMemo (r : Region) : Region := { r with memo := none }

/-- The region memo byte string parses as a lenient agora memo of the given
transaction type. -/
def regionHasType (t : Nat) (r : Region) : Bool :=
  match MemoFromBase64String r.memoData false with
  | some m => memoTransactionType m == t
  | none => false

/-- The app id the region contributes through the text-memo fallback: present
exactly when the memo data does not parse as an agora memo and does parse as a
text memo. -/
def textMemoID (r : Region) : Option Bytes :=
  match MemoFromBase64String r.memoData false with
  | some _ => none
  | none => AppIDFromTextMemo r.memoData

/-- The invoice match condition of C2: the region memo parses as a lenient
agora memo, the first 28 bytes of its foreign key equal the invoice-list hash,
and the 29th foreign-key byte is zero. -/
def regionMatchesInvoice (ilv : InvoiceList) (r : Region) : Bool :=
  match MemoFromBase64String r.memoData false with
  | some m =>
    ((memoForeignKey m).take 28 == ilv.hash) && ((memoForeignKey m).getD 28 0 == 0)
  | none => false

/-- Fueled count of memo-program instructions from index i on. -/
def countMemosGo (tx : Transaction) : Nat → Nat → Nat
  | 0, _ => 0
  | f + 1, i =>
    if i < tx.message.instructions.length then
      (if isMemo tx i then 1 else 0) + countMemosGo tx f (i + 1)
    else 0

/-- The number of memo-program instructions at indices of at least i. -/
def countMemos (tx : Transaction) (i : Nat) : Nat :=
  countMemosGo tx (tx.message.instructions.length - i) i

/-- Fueled collection of the memo instruction data from index i on. -/
def memoDatasGo (tx : Transaction) : Nat → Nat → List Bytes
  | 0, _ => []
  | f + 1, i =>
    if i < tx.message.instructions.length then
      (if isMemo tx i then [(tx.message.instr i).data] else []) ++ memoDatasGo tx f (i + 1)
    else []

/-- The data bytes of the memo-program instructions at indices of at least i,
in instruction order; these are the bytes DecompileMemo yields unchanged. -/
def memoDatas (tx : Transaction) (i : Nat) : List Bytes :=
  memoDatasGo tx (tx.message.instructions.length - i) i

/-- Fueled search for the first memo-program instruction at index i or later. -/
def nextMemoGo (tx : Transaction) : Nat → Nat → Option Nat
  | 0, _ => none
  | f + 1, i =>
    if i < tx.message.instructions.length then
      (if isMemo tx i then some i else nextMemoGo tx f (i + 1))
    else none

/-- The index of the first memo-program instruction at index i or later. -/
def nextMemo (tx : Transaction) (i : Nat) : Option Nat :=
  nextMemoGo tx (tx.message.instructions.length - i) i

/-- Fueled segment interpretation: process instructions from index i with the
same per-instruction logic as the walk, stopping at the next memo-program
instruction or at the end of the list; the result is the region holding
exactly the creations, transfers and closures decompiled in that range. -/
def segItemsGo (tx : Transaction) : Nat → Nat → Region → Except ParseError Region
  | 0, _, cur => .ok cur
  | f + 1, i, cur =>
    if i < tx.message.instructions.length then
      if isMemo tx i then .ok cur
      else match walkStep tx i cur with
        | .err e => .error e
        | .stop r => .ok r
        | .cont j r => segItemsGo tx f j r
        | .newRegion _ _ => .ok cur
    else .ok cur

/-- The items decompiled from the instructions between index i (inclusive) and
the next memo-program instruction (exclusive), added to the passed region. -/
def segItems (tx : Transaction) (i : Nat) (cur : Region) : Except ParseError Region :=
  segItemsGo tx (tx.message.instructions.length - i) i cur

/-- The region decomposition C4 describes: the region list splits at the memo
instructions, the first region holding the items decompiled before the first
memo, and each later region carrying a memo instruction data and holding
exactly the items decompiled strictly between that memo and the next one. -/
inductive SegRel (tx : Transaction) : Nat → Region → List Region → Prop where
  | last : ∀ i cur r, segItems tx i cur = .ok r → nextMemo tx i = none →
      SegRel tx i cur [r]
  | cons : ∀ i cur r j d rest, segItems tx i cur = .ok r → nextMemo tx i = some j →
      DecompileMemo tx.message j = some d →
      SegRel tx (j + 1) { memoData := d } rest →
      SegRel tx i cur (r :: rest)

/-- The instruction walk of ParseTransaction reaches index i with current
region cur: either the start of the walk, or one more continuing step, or the
fresh region opened right after a memo instruction. -/
inductive WalkReaches (tx : Transaction) : Nat → Region → Prop where
  | start : WalkReaches tx 0 {}
  | step : ∀ i cur j r, WalkReaches tx i cur → i < tx.message.instructions.length →
      walkStep tx i cur = .cont j r → WalkReaches tx j r
  | memo : ∀ i cur j r, WalkReaches tx i cur → i < tx.message.instructions.length →
      walkStep tx i cur = .newRegion j r → WalkReaches tx j r

/-! Concrete transactions used by the witnesses and counterexamples. -/
def subK : Bytes := List.replicate 32 2

def addrK : Bytes := List.replicate 32 3

def mintK : Bytes := List.replicate 32 4

def ownK : Bytes := List.replicate 32 5

def srcK : Bytes := List.replicate 32 6

def dstK : Bytes := List.replicate 32 7

/-- system.CreateAccount instruction data: little-endian command 0, lamports,
size 165, and the owner key. -/
def createData : Bytes := [0, 0, 0, 0] ++ leUint64Bytes 0 ++ leUint64Bytes 165 ++ tokenProgramKey

/-- token.SetAuthority data: command 6, type CloseAccount, new authority subK. -/
def setAuthData : Bytes := [6, 3, 1] ++ subK

/-- token.Transfer data: command 3 and a little-endian amount. -/
def transferData : Bytes := [3] ++ leUint64Bytes 10

/-- A transaction with a full bare creation (CreateAccount, InitializeAccount,
SetAuthority CloseAccount) followed by a transfer; ParseTransaction accepts it. -/
def txW : Transaction :=
  { signatures := [[1]]
    message :=
      { accounts := [subK, addrK, mintK, ownK, srcK, dstK, tokenProgramKey, systemProgramKey,
          rentSysVar, memoProgramKey]
        instructions :=
          [ { programIndex := 7, accounts := [0, 1], data := createData }
          , { programIndex := 6, accounts := [1, 2, 3, 8], data := [1] }
          , { programIndex := 6, accounts := [1, 0], data := setAuthData }
          , { programIndex := 6, accounts := [4, 5, 3], data := transferData } ] } }

def txWParsed : Tx := (ParseTransaction txW none).toOption.getD {}

/-- A transaction whose only instruction is a token transfer owned by the
account at index 0, the subsidizer. -/
def txSub : Transaction :=
  { signatures := [[1]]
    message :=
      { accounts := [ownK, tokenProgramKey, srcK, dstK]
        instructions := [ { programIndex := 1, accounts := [2, 3, 0], data := transferData } ] } }

def tSub : DecompiledTransfer := (DecompileTransfer txSub.message 0).getD
  { source := [], destination := [], owner := [], amount := 0 }

/-- Base64 of an agora earn memo with app index 1 and an all-zero foreign key. -/
def earnB64 : Bytes := [82, 81, 103, 65] ++ List.replicate 39 65 ++ [61]

/-- Base64 of an agora spend memo with app index 2 and an all-zero foreign key. -/
def spend2B64 : Bytes := [104, 82, 65, 65] ++ List.replicate 39 65 ++ [61]

/-- Base64 of an agora spend memo with app index 1 and an all-zero foreign key. -/
def spend1B64 : Bytes := [104, 81, 103, 65] ++ List.replicate 39 65 ++ [61]

/-- Two memo instructions: an earn memo with app index 1, then a spend memo
with app index 2, so the memos mix earn with spend while their app indexes
differ. -/
def memoMixTx : Transaction :=
  { signatures := [[1]]
    message :=
      { accounts := [subK, memoProgramKey]
        instructions := [ { programIndex := 1, accounts := [], data := earnB64 }
                        , { programIndex := 1, accounts := [], data := spend2B64 } ] } }

def memoMixRegions : List Region := (parseWalk memoMixTx 0 {}).toOption.getD []

/-- An invoice list whose hash matches no memo of memoMixTx. -/
def ilNine : InvoiceList := { invoiceCount := 1, hash := List.replicate 28 9 }

/-- Two memo instructions: an earn memo and a spend memo that share app
index 1, so the mixed-transaction-types check is reached and fires. -/
def memoSameTx : Transaction :=
  { signatures := [[1]]
    message :=
      { accounts := [subK, memoProgramKey]
        instructions := [ { programIndex := 1, accounts := [], data := earnB64 }
                        , { programIndex := 1, accounts := [], data := spend1B64 } ] } }

/-- The text memo bytes of the string 1-test. -/
def textMemoBytes : Bytes := [49, 45, 116, 101, 115, 116]

/-- A transaction with a text memo instruction and one transfer. -/
def txText : Transaction :=
  { signatures := [[1]]
    message :=
      { accounts := [subK, memoProgramKey, tokenProgramKey, srcK, dstK, ownK]
        instructions := [ { programIndex := 1, accounts := [], data := textMemoBytes }
                        , { programIndex := 2, accounts := [3, 4, 5], data := transferData } ] } }

def txTextParsed : Tx := (ParseTransaction txText none).toOption.getD {}

def txTextRegions : List Region := (parseWalk txText 0 {}).toOption.getD []

def rText : Region := txTextRegions.getD 1 {}

/-- An invoice list whose hash equals the all-zero foreign key of earnB64. -/
def ilZero : InvoiceList := { invoiceCount := 1, hash := List.replicate 28 0 }

/-- An earn memo whose foreign key matches ilZero, followed by one transfer. -/
def txInv : Transaction :=
  { signatures := [[1]]
    message :=
      { accounts := [subK, memoProgramKey, tokenProgramKey, srcK, dstK, ownK]
        instructions := [ { programIndex := 1, accounts := [], data := earnB64 }
                        , { programIndex := 2, accounts := [3, 4, 5], data := transferData } ] } }

def txInvParsed : Tx := (ParseTransaction txInv (some ilZero)).toOption.getD {}

/-- The byte layout C7 states for the marshalled account: mint, owner, the
little-endian amount, a 36-byte optional delegate (4-byte discriminant then the
key), the state byte, a 12-byte optional native flag (4-byte discriminant then
a little-endian value), the little-endian delegated amount, and a 36-byte
optional close authority, each optional block occupying its full width whether
present or not. -/
def accountBytesSpec (a : Account) : Bytes :=
  a.mint ++ (a.owner ++ (leUint64Bytes a.amount ++
    ((if a.delegate.length > 0 then [1, 0, 0, 0] ++ a.delegate else List.replicate 36 0) ++
      ([a.state] ++
        (a.isNative.elim (List.replicate 12 0) (fun v => [1, 0, 0, 0] ++ leUint64Bytes v) ++
          (leUint64Bytes a.delegatedAmount ++
            (if a.closeAuthority.length > 0 then [1, 0, 0, 0] ++ a.closeAuthority
             else List.replicate 36 0)))))))

def acctW : Account :=
  { mint := List.replicate 32 1, owner := List.replicate 32 2, amount := 77
    delegate := List.replicate 32 3, state := 1, isNative := some 5
    delegatedAmount := 9, closeAuthority := List.replicate 32 4 }

/-! Theorems: the lemma layer and the theorems settling the claims. -/

/-- C9: for an 80-byte nonce account owned by the system program,
GetNonceValueFromAccount returns the 32 data bytes at offsets 40 to 72; any
other data length or owner fails. -/
theorem nonce_value_extraction_spec (info : AccountInfo) :
    (info.data.length = 80 → info.owner = systemProgramKey →
      GetNonceValueFromAccount info = some ((info.data.drop 40).take 32) ∧
      ((info.data.drop 40).take 32).length = 32) ∧
    (info.data.length ≠ 80 ∨ info.owner ≠ systemProgramKey →
      GetNonceValueFromAccount info = none) := by
  unfold GetNonceValueFromAccount
  constructor
  · intro h1 h2
    rw [if_neg (by omega), if_neg (by simp [h2])]
    refine ⟨rfl, ?_⟩
    rw [List.length_take, List.length_drop, h1]
    omega
  · intro h
    rcases h with h | h
    · rw [if_pos h]
    · by_cases hl : info.data.length = 80
      · rw [if_neg (by omega), if_pos h]
      · rw [if_pos hl]

/-- Witness for the C9 theorem at a concrete 80-byte account. -/
theorem nonce_value_extraction_witness :
    GetNonceValueFromAccount { owner := systemProgramKey, data := List.range 80 } =
      some (((List.range 80).drop 40).take 32) :=
  ((nonce_value_extraction_spec
    { owner := systemProgramKey, data := List.range 80 }).1 (by decide) rfl).1

/-- C10: Account.Unmarshal accepts exactly the inputs of length 165, and each
optional field is treated as present exactly when the first byte of its 4-byte
discriminant equals 1, the other discriminant bytes being ignored. -/
theorem account_unmarshal_acceptance (b : Bytes) :
    ((Account.Unmarshal b).isSome ↔ b.length = 165) ∧
    (∀ a, Account.Unmarshal b = some a →
      (a.delegate ≠ [] ↔ b.getD 72 0 = 1) ∧
      (a.isNative.isSome ↔ b.getD 109 0 = 1) ∧
      (a.closeAuthority ≠ [] ↔ b.getD 129 0 = 1) ∧
      a.delegate = (if b.getD 72 0 = 1 then (b.drop 76).take 32 else []) ∧
      a.isNative = (if b.getD 109 0 = 1 then some (leUint64 (b.drop 113)) else none) ∧
      a.closeAuthority = (if b.getD 129 0 = 1 then (b.drop 133).take 32 else [])) := by
  constructor
  · unfold Account.Unmarshal
    by_cases h : b.length = 165
    · rw [if_neg (by omega)]
      simp [h]
    · rw [if_pos h]
      simp [h]
  · intro a ha
    unfold Account.Unmarshal at ha
    by_cases h : b.length = 165
    · rw [if_neg (by omega)] at ha
      injection ha with ha
      subst ha
      refine ⟨?_, ?_, ?_, rfl, rfl, rfl⟩
      · show (if b.getD 72 0 = 1 then (b.drop 76).take 32 else []) ≠ [] ↔ b.getD 72 0 = 1
        by_cases hflag : b.getD 72 0 = 1
        · have hlen : ((b.drop 76).take 32).length = 32 := by
            rw [List.length_take, List.length_drop, h]
            omega
          rw [if_pos hflag]
          simp only [hflag, iff_true]
          intro hcon
          rw [hcon] at hlen
          simp at hlen
        · rw [if_neg hflag]
          simpa using hflag
      · show (if b.getD 109 0 = 1 then some (leUint64 (b.drop 113)) else none).isSome ↔
          b.getD 109 0 = 1
        by_cases hflag : b.getD 109 0 = 1
        · rw [if_pos hflag]
          simpa using hflag
        · rw [if_neg hflag]
          simpa using hflag
      · show (if b.getD 129 0 = 1 then (b.drop 133).take 32 else []) ≠ [] ↔ b.getD 129 0 = 1
        by_cases hflag : b.getD 129 0 = 1
        · have hlen : ((b.drop 133).take 32).length = 32 := by
            rw [List.length_take, List.length_drop, h]
            omega
          rw [if_pos hflag]
          simp only [hflag, iff_true]
          intro hcon
          rw [hcon] at hlen
          simp at hlen
        · rw [if_neg hflag]
          simpa using hflag
    · rw [if_pos h] at ha
      exact absurd ha (by simp)

/-- Witness for the C10 theorem: a 165-byte input with every byte 3 (so each
discriminant has first byte 3 and nonzero trailing bytes) is accepted and all
optional fields are read as absent. -/
theorem account_unmarshal_acceptance_witness :
    (Account.Unmarshal (List.replicate 165 3)).isSome = true := by
  rw [(account_unmarshal_acceptance (List.replicate 165 3)).1]
  decide

/-- C6 (amended): given the token program, exactly 2 accounts, and data
starting with the command byte 6, DecompileSetAuthority succeeds exactly when
the data length is at least 3 and the length matches 3 for flag byte 0 and 35
for flag byte 1; flag bytes other than 0 and 1 are accepted with any length of
at least 3. On success the new authority equals data bytes 3 to 35 when the
flag byte is 1 and is absent otherwise. -/
theorem decompile_set_authority_spec (m : Message) (index : Nat)
    (hidx : index < m.instructions.length)
    (hprog : m.account (m.instr index).programIndex = tokenProgramKey)
    (hacc : (m.instr index).accounts.length = 2)
    (hcmd : (m.instr index).data.getD 0 0 = 6) :
    ((DecompileSetAuthority m index).isSome ↔
      (3 ≤ (m.instr index).data.length ∧
        ((m.instr index).data.getD 2 0 = 0 → (m.instr index).data.length = 3) ∧
        ((m.instr index).data.getD 2 0 = 1 → (m.instr index).data.length = 35))) ∧
    (∀ d, DecompileSetAuthority m index = some d →
      d.newAuthority = (if (m.instr index).data.getD 2 0 = 1
        then ((m.instr index).data.drop 3).take 32 else []) ∧
      d.type = (m.instr index).data.getD 1 0) := by
  unfold DecompileSetAuthority
  rw [if_neg (by omega), if_neg (by simp [hprog]), if_neg (by simp [hacc])]
  by_cases h3 : (m.instr index).data.length < 3
  · rw [if_pos h3]
    constructor
    · exact iff_of_false (by simp) (by omega)
    · intro d hd
      exact absurd hd (by simp)
  · rw [if_neg h3, if_neg (by simpa using hcmd)]
    by_cases h0 : (m.instr index).data.getD 2 0 = 0 ∧ (m.instr index).data.length ≠ 3
    · rw [if_pos h0]
      constructor
      · exact iff_of_false (by simp) (by omega)
      · intro d hd
        exact absurd hd (by simp)
    · rw [if_neg h0]
      by_cases h1 : (m.instr index).data.getD 2 0 = 1 ∧ (m.instr index).data.length ≠ 35
      · rw [if_pos h1]
        constructor
        · exact iff_of_false (by simp) (by omega)
        · intro d hd
          exact absurd hd (by simp)
      · rw [if_neg h1]
        constructor
        · exact iff_of_true rfl (by omega)
        · intro d hd
          injection hd with hd
          subst hd
          exact ⟨rfl, rfl⟩

/-- Counterexample to C6 as stated: an instruction of the token program with 2
accounts and data [6, 3, 2] (command 6, flag byte 2, length 3) is neither of
the two shapes the claim allows, yet DecompileSetAuthority succeeds. -/
theorem decompile_set_authority_cex :
    (setAuthorityFlag2Msg.account (setAuthorityFlag2Msg.instr 0).programIndex =
      tokenProgramKey) ∧
    (setAuthorityFlag2Msg.instr 0).accounts.length = 2 ∧
    (setAuthorityFlag2Msg.instr 0).data.getD 0 0 = 6 ∧
    ¬(((setAuthorityFlag2Msg.instr 0).data.getD 2 0 = 0 ∧
        (setAuthorityFlag2Msg.instr 0).data.length = 3) ∨
      ((setAuthorityFlag2Msg.instr 0).data.getD 2 0 = 1 ∧
        (setAuthorityFlag2Msg.instr 0).data.length = 35)) ∧
    (DecompileSetAuthority setAuthorityFlag2Msg 0).isSome = true := by
  refine ⟨rfl, rfl, rfl, by decide, ?_⟩
  decide

/-- Witness for the C6 theorem at a concrete flag-1 instruction. -/
theorem decompile_set_authority_witness :
    (DecompileSetAuthority setAuthorityFlag1Msg 0).isSome = true := by
  rw [(decompile_set_authority_spec setAuthorityFlag1Msg 0 (by decide) (by decide)
    (by decide) (by decide)).1]
  decide

/-! Helper lemmas about the walk. -/
theorem exceptMap_ok {ε α β : Type} {f : α → β} {x : Except ε α} {b : β}
    (h : x.map f = .ok b) : ∃ a, x = .ok a ∧ b = f a := by
  cases x with
  | error e => simp [Except.map] at h
  | ok a => exact ⟨a, rfl, by simpa [Except.map] using h.symm⟩

theorem isMemo_false_of_token {tx : Transaction} {k : Nat}
    (h : tx.message.account (tx.message.instr k).programIndex = tokenProgramKey) :
    isMemo tx k = false := by
  unfold isMemo
  rw [h]
  decide

theorem isSystem_false_of_token {tx : Transaction} {k : Nat}
    (h : tx.message.account (tx.message.instr k).programIndex = tokenProgramKey) :
    isSystem tx k = false := by
  unfold isSystem
  rw [h]
  decide

theorem isSPLAssoc_false_of_token {tx : Transaction} {k : Nat}
    (h : tx.message.account (tx.message.instr k).programIndex = tokenProgramKey) :
    isSPLAssoc tx k = false := by
  unfold isSPLAssoc
  rw [h]
  decide

theorem isMemo_false_of_isSystem {tx : Transaction} {k : Nat}
    (h : isSystem tx k = true) : isMemo tx k = false := by
  unfold isSystem at h
  unfold isMemo
  rw [eq_of_beq h]
  decide

theorem isSPLAssoc_false_of_isSystem {tx : Transaction} {k : Nat}
    (h : isSystem tx k = true) : isSPLAssoc tx k = false := by
  unfold isSystem at h
  unfold isSPLAssoc
  rw [eq_of_beq h]
  decide

theorem isMemo_false_of_isSPLAssoc {tx : Transaction} {k : Nat}
    (h : isSPLAssoc tx k = true) : isMemo tx k = false := by
  unfold isSPLAssoc at h
  unfold isMemo
  rw [eq_of_beq h]
  decide

theorem isSystem_false_of_isSPLAssoc {tx : Transaction} {k : Nat}
    (h : isSPLAssoc tx k = true) : isSystem tx k = false := by
  unfold isSPLAssoc at h
  unfold isSystem
  rw [eq_of_beq h]
  decide

theorem isSystem_false_of_isMemo {tx : Transaction} {k : Nat}
    (h : isMemo tx k = true) : isSystem tx k = false := by
  unfold isMemo at h
  unfold isSystem
  rw [eq_of_beq h]
  decide

theorem isSPLAssoc_false_of_isMemo {tx : Transaction} {k : Nat}
    (h : isMemo tx k = true) : isSPLAssoc tx k = false := by
  unfold isMemo at h
  unfold isSPLAssoc
  rw [eq_of_beq h]
  decide

theorem isSPL_false_of_isMemo {tx : Transaction} {k : Nat}
    (h : isMemo tx k = true) : isSPL tx k = false := by
  unfold isMemo at h
  unfold isSPL
  rw [eq_of_beq h]
  decide

theorem decompileInitializeAccount_facts {m : Message} {k : Nat} {x : DecompiledInitializeAccount}
    (h : DecompileInitializeAccount m k = some x) :
    m.account (m.instr k).programIndex = tokenProgramKey ∧ k < m.instructions.length := by
  unfold DecompileInitializeAccount at h
  by_cases h1 : k ≥ m.instructions.length
  · rw [if_pos h1] at h
    cases h
  · rw [if_neg h1] at h
    by_cases h2 : m.account (m.instr k).programIndex ≠ tokenProgramKey
    · rw [if_pos h2] at h
      cases h
    · exact ⟨not_not.mp h2, by omega⟩

theorem decompileSetAuthority_facts {m : Message} {k : Nat} {x : DecompiledSetAuthority}
    (h : DecompileSetAuthority m k = some x) :
    m.account (m.instr k).programIndex = tokenProgramKey ∧ k < m.instructions.length := by
  unfold DecompileSetAuthority at h
  by_cases h1 : k ≥ m.instructions.length
  · rw [if_pos h1] at h
    cases h
  · rw [if_neg h1] at h
    by_cases h2 : m.account (m.instr k).programIndex ≠ tokenProgramKey
    · rw [if_pos h2] at h
      cases h
    · exact ⟨not_not.mp h2, by omega⟩

theorem decompileSetAuthority_oob {m : Message} {k : Nat}
    (h : m.instructions.length ≤ k) : DecompileSetAuthority m k = none := by
  unfold DecompileSetAuthority
  rw [if_pos (by omega)]

theorem decompileCreateAccount_facts {m : Message} {k : Nat} {x : DecompiledCreateAccount}
    (h : DecompileCreateAccount m k = some x) :
    m.account (m.instr k).programIndex = systemProgramKey ∧ k < m.instructions.length := by
  unfold DecompileCreateAccount at h
  by_cases h1 : k ≥ m.instructions.length
  · rw [if_pos h1] at h
    cases h
  · rw [if_neg h1] at h
    by_cases h2 : m.account (m.instr k).programIndex ≠ systemProgramKey
    · rw [if_pos h2] at h
      cases h
    · exact ⟨not_not.mp h2, by omega⟩

theorem decompileTransfer_facts {m : Message} {k : Nat} {x : DecompiledTransfer}
    (h : DecompileTransfer m k = some x) :
    m.account (m.instr k).programIndex = tokenProgramKey ∧ k < m.instructions.length := by
  unfold DecompileTransfer at h
  by_cases h1 : k ≥ m.instructions.length
  · rw [if_pos h1] at h
    cases h
  · rw [if_neg h1] at h
    by_cases h2 : m.account (m.instr k).programIndex ≠ tokenProgramKey
    · rw [if_pos h2] at h
      cases h
    · exact ⟨not_not.mp h2, by omega⟩

theorem decompileCloseAccount_facts {m : Message} {k : Nat} {x : DecompiledCloseAccount}
    (h : DecompileCloseAccount m k = some x) :
    m.account (m.instr k).programIndex = tokenProgramKey ∧ k < m.instructions.length := by
  unfold DecompileCloseAccount at h
  by_cases h1 : k ≥ m.instructions.length
  · rw [if_pos h1] at h
    cases h
  · rw [if_neg h1] at h
    by_cases h2 : m.account (m.instr k).programIndex ≠ tokenProgramKey
    · rw [if_pos h2] at h
      cases h
    · exact ⟨not_not.mp h2, by omega⟩

theorem walkStep_props (tx : Transaction) (i : Nat) (cur : Region) :
    StepProps tx i cur (walkStep tx i cur) := by
  unfold walkStep
  by_cases hm : isMemo tx i
  · rw [if_pos hm]
    cases hd : DecompileMemo tx.message i with
    | none => trivial
    | some d => exact ⟨rfl, hm, d, hd, rfl⟩
  · rw [if_neg hm]
    by_cases hsys : isSystem tx i
    · rw [if_pos hsys]
      cases hca : DecompileCreateAccount tx.message i with
      | none => trivial
      | some ca =>
        dsimp only
        by_cases how : ca.owner ≠ tokenProgramKey
        · rw [if_pos how]
          trivial
        · rw [if_neg how]
          by_cases hsz : ca.size ≠ 165
          · rw [if_pos hsz]
            trivial
          · rw [if_neg hsz]
            by_cases hend1 : i + 1 = tx.message.instructions.length
            · rw [if_pos hend1]
              trivial
            · rw [if_neg hend1]
              cases hia : DecompileInitializeAccount tx.message (i + 1) with
              | none => trivial
              | some ia =>
                dsimp only
                by_cases haddr : ca.address ≠ ia.account
                · rw [if_pos haddr]
                  trivial
                · rw [if_neg haddr]
                  by_cases hend2 : i + 2 = tx.message.instructions.length
                  · rw [if_pos hend2]
                    trivial
                  · rw [if_neg hend2]
                    cases hsa : DecompileSetAuthority tx.message (i + 2) with
                    | none => trivial
                    | some sa =>
                      dsimp only
                      by_cases hty : sa.type ≠ authorityTypeCloseAccount
                      · rw [if_pos hty]
                        trivial
                      · rw [if_neg hty]
                        by_cases hsacc : sa.account ≠ ca.address
                        · rw [if_pos hsacc]
                          trivial
                        · rw [if_neg hsacc]
                          have hcond3 : (∀ ah, DecompileSetAuthority tx.message (i + 3) = some ah →
                              ah.type = authorityTypeAccountHolder ∧ ah.account = ca.address) →
                              CondBelow tx i (i + 3) := by
                            intro hahcl k hk1 hk2
                            have hks : k = i ∨ k = i + 1 ∨ k = i + 2 := by omega
                            rcases hks with rfl | rfl | rfl
                            · refine ⟨fun _ => ⟨ca, ia, sa, hca, not_not.mp how,
                                not_not.mp hsz, hia, (not_not.mp haddr).symm, hsa,
                                not_not.mp hty, not_not.mp hsacc, hahcl⟩,
                                fun hco => ?_, by simpa using hm⟩
                              rw [isSPLAssoc_false_of_isSystem hsys] at hco
                              exact absurd hco (by simp)
                            · have hf := decompileInitializeAccount_facts hia
                              refine ⟨fun hco => ?_, fun hco => ?_,
                                isMemo_false_of_token hf.1⟩
                              · rw [isSystem_false_of_token hf.1] at hco
                                exact absurd hco (by simp)
                              · rw [isSPLAssoc_false_of_token hf.1] at hco
                                exact absurd hco (by simp)
                            · have hf := decompileSetAuthority_facts hsa
                              refine ⟨fun hco => ?_, fun hco => ?_,
                                isMemo_false_of_token hf.1⟩
                              · rw [isSystem_false_of_token hf.1] at hco
                                exact absurd hco (by simp)
                              · rw [isSPLAssoc_false_of_token hf.1] at hco
                                exact absurd hco (by simp)
                          by_cases hend3 : i + 3 = tx.message.instructions.length
                          · rw [if_pos hend3]
                            refine ⟨hend3, hcond3 ?_, rfl, rfl⟩
                            intro ah hah
                            rw [decompileSetAuthority_oob (by omega)] at hah
                            cases hah
                          · rw [if_neg hend3]
                            cases hah : DecompileSetAuthority tx.message (i + 3) with
                            | none =>
                              refine ⟨⟨by omega, by
                                have := (decompileSetAuthority_facts hsa).2
                                omega⟩, hcond3 ?_, rfl, rfl⟩
                              intro ah h2
                              rw [hah] at h2
                              cases h2
                            | some ah =>
                              dsimp only
                              by_cases hahty : ah.type ≠ authorityTypeAccountHolder
                              · rw [if_pos hahty]
                                trivial
                              · rw [if_neg hahty]
                                by_cases hahacc : ah.account ≠ ca.address
                                · rw [if_pos hahacc]
                                  trivial
                                · rw [if_neg hahacc]
                                  have hahcl : ∀ ah2,
                                      DecompileSetAuthority tx.message (i + 3) = some ah2 →
                                      ah2.type = authorityTypeAccountHolder ∧
                                      ah2.account = ca.address := by
                                    intro ah2 h2
                                    rw [hah] at h2
                                    injection h2 with h2
                                    subst h2
                                    exact ⟨not_not.mp hahty, not_not.mp hahacc⟩
                                  refine ⟨⟨by omega, by
                                    have := (decompileSetAuthority_facts hah).2
                                    omega⟩, ?_, rfl, rfl⟩
                                  intro k hk1 hk2
                                  have hks : k = i ∨ k = i + 1 ∨ k = i + 2 ∨ k = i + 3 := by
                                    omega
                                  rcases hks with rfl | rfl | rfl | rfl
                                  · exact hcond3 hahcl _ (by omega) (by omega)
                                  · exact hcond3 hahcl _ (by omega) (by omega)
                                  · exact hcond3 hahcl _ (by omega) (by omega)
                                  · have hf := decompileSetAuthority_facts hah
                                    refine ⟨fun hco => ?_, fun hco => ?_,
                                      isMemo_false_of_token hf.1⟩
                                    · rw [isSystem_false_of_token hf.1] at hco
                                      exact absurd hco (by simp)
                                    · rw [isSPLAssoc_false_of_token hf.1] at hco
                                      exact absurd hco (by simp)
    · rw [if_neg hsys]
      by_cases hassoc : isSPLAssoc tx i
      · rw [if_pos hassoc]
        cases hcr : DecompileCreateAssociatedAccount tx.message i with
        | none => trivial
        | some ca =>
          dsimp only
          by_cases hend1 : i + 1 = tx.message.instructions.length
          · rw [if_pos hend1]
            trivial
          · rw [if_neg hend1]
            cases hsa : DecompileSetAuthority tx.message (i + 1) with
            | none => trivial
            | some sa =>
              dsimp only
              by_cases hty : sa.type ≠ authorityTypeCloseAccount
              · rw [if_pos hty]
                trivial
              · rw [if_neg hty]
                by_cases hsacc : sa.account ≠ ca.address
                · rw [if_pos hsacc]
                  trivial
                · rw [if_neg hsacc]
                  refine ⟨⟨by omega, by
                    have := (decompileSetAuthority_facts hsa).2
                    omega⟩, ?_, rfl, rfl⟩
                  intro k hk1 hk2
                  have hks : k = i ∨ k = i + 1 := by omega
                  rcases hks with rfl | rfl
                  · refine ⟨fun hco => ?_, fun _ => ?_,
                      isMemo_false_of_isSPLAssoc hassoc⟩
                    · rw [isSystem_false_of_isSPLAssoc hassoc] at hco
                      exact absurd hco (by simp)
                    · exact ⟨ca, sa, hcr, hsa, not_not.mp hty, not_not.mp hsacc⟩
                  · have hf := decompileSetAuthority_facts hsa
                    refine ⟨fun hco => ?_, fun hco => ?_,
                      isMemo_false_of_token hf.1⟩
                    · rw [isSystem_false_of_token hf.1] at hco
                      exact absurd hco (by simp)
                    · rw [isSPLAssoc_false_of_token hf.1] at hco
                      exact absurd hco (by simp)
      · rw [if_neg hassoc]
        by_cases hspl : isSPL tx i
        · rw [if_pos hspl]
          by_cases hc3 : GetCommand tx.message i = 3
          · rw [if_pos hc3]
            cases ht : DecompileTransfer tx.message i with
            | none => trivial
            | some t =>
              dsimp only
              by_cases hown : t.owner = tx.message.account 0
              · rw [if_pos hown]
                trivial
              · rw [if_neg hown]
                have hf := decompileTransfer_facts ht
                refine ⟨⟨by omega, by omega⟩, ?_, rfl, rfl⟩
                intro k hk1 hk2
                have hk : k = i := by omega
                subst hk
                refine ⟨fun hco => ?_, fun hco => ?_, isMemo_false_of_token hf.1⟩
                · rw [isSystem_false_of_token hf.1] at hco
                  exact absurd hco (by simp)
                · rw [isSPLAssoc_false_of_token hf.1] at hco
                  exact absurd hco (by simp)
          · rw [if_neg hc3]
            by_cases hc9 : GetCommand tx.message i = 9
            · rw [if_pos hc9]
              cases hcl : DecompileCloseAccount tx.message i with
              | none => trivial
              | some cl =>
                dsimp only
                have hf := decompileCloseAccount_facts hcl
                refine ⟨⟨by omega, by omega⟩, ?_, rfl, rfl⟩
                intro k hk1 hk2
                have hk : k = i := by omega
                subst hk
                refine ⟨fun hco => ?_, fun hco => ?_, isMemo_false_of_token hf.1⟩
                · rw [isSystem_false_of_token hf.1] at hco
                  exact absurd hco (by simp)
                · rw [isSPLAssoc_false_of_token hf.1] at hco
                  exact absurd hco (by simp)
            · rw [if_neg hc9]
              trivial
        · rw [if_neg hspl]
          trivial

theorem walkGo_irrel (tx : Transaction) :
    ∀ f g i cur, tx.message.instructions.length ≤ f + i →
      tx.message.instructions.length ≤ g + i →
      walkGo tx f i cur = walkGo tx g i cur := by
  intro f
  induction f with
  | zero =>
    intro g i cur hf hg
    cases g with
    | zero => rfl
    | succ g =>
      simp only [walkGo]
      rw [if_neg (by omega)]
  | succ f ih =>
    intro g i cur hf hg
    cases g with
    | zero =>
      simp only [walkGo]
      rw [if_neg (by omega)]
    | succ g =>
      simp only [walkGo]
      by_cases hi : i < tx.message.instructions.length
      · rw [if_pos hi, if_pos hi]
        have hp := walkStep_props tx i cur
        cases hs : walkStep tx i cur with
        | err e => rfl
        | stop r => rfl
        | cont j r =>
          rw [hs] at hp
          obtain ⟨⟨hj1, hj2⟩, _⟩ := hp
          exact ih g j r (by omega) (by omega)
        | newRegion j r =>
          rw [hs] at hp
          obtain ⟨rfl, _⟩ := hp
          exact congrArg (Except.map fun rs => cur :: rs) (ih g (i + 1) r (by omega) (by omega))
      · rw [if_neg hi, if_neg hi]

theorem walkGo_ok_cond (tx : Transaction) :
    ∀ f i cur rs, tx.message.instructions.length ≤ f + i →
      walkGo tx f i cur = .ok rs →
      ∀ k, i ≤ k → k < tx.message.instructions.length →
        (isSystem tx k = true → SysCreationCond tx k) ∧
        (isSPLAssoc tx k = true → AssocCreationCond tx k) := by
  intro f
  induction f with
  | zero =>
    intro i cur rs hf hw k hk1 hk2
    exact absurd hk2 (by omega)
  | succ f ih =>
    intro i cur rs hf hw k hk1 hk2
    simp only [walkGo] at hw
    by_cases hi : i < tx.message.instructions.length
    · rw [if_pos hi] at hw
      have hp := walkStep_props tx i cur
      cases hs : walkStep tx i cur with
      | err e =>
        rw [hs] at hw
        cases hw
      | stop r =>
        rw [hs] at hp
        obtain ⟨hlen3, hcb, _⟩ := hp
        exact ⟨(hcb k hk1 (by omega)).1, (hcb k hk1 (by omega)).2.1⟩
      | cont j r =>
        rw [hs] at hp hw
        obtain ⟨⟨hj1, hj2⟩, hcb, _⟩ := hp
        by_cases hkj : k < j
        · exact ⟨(hcb k hk1 hkj).1, (hcb k hk1 hkj).2.1⟩
        · exact ih j r rs (by omega) hw k (by omega) hk2
      | newRegion j r =>
        rw [hs] at hp hw
        obtain ⟨rfl, hmem, _⟩ := hp
        obtain ⟨rs0, hrs0, rfl⟩ := exceptMap_ok hw
        by_cases hkI : k = i
        · subst hkI
          refine ⟨fun hco => ?_, fun hco => ?_⟩
          · rw [isSystem_false_of_isMemo hmem] at hco
            exact absurd hco (by simp)
          · rw [isSPLAssoc_false_of_isMemo hmem] at hco
            exact absurd hco (by simp)
        · exact ih (i + 1) r rs0 (by omega) hrs0 k (by omega) hk2
    · rw [if_neg hi] at hw
      exact absurd hk2 (by omega)

theorem parseWalk_cont {tx : Transaction} {i : Nat} {cur : Region} {j : Nat} {r : Region}
    (hs : walkStep tx i cur = .cont j r) (hi : i < tx.message.instructions.length) :
    parseWalk tx i cur = parseWalk tx j r := by
  unfold parseWalk
  have h1 : tx.message.instructions.length - i = (tx.message.instructions.length - i - 1) + 1 := by
    omega
  rw [h1]
  simp only [walkGo]
  rw [if_pos hi, hs]
  have hp := walkStep_props tx i cur
  rw [hs] at hp
  obtain ⟨⟨hj1, hj2⟩, _⟩ := hp
  exact walkGo_irrel tx _ _ j r (by omega) (by omega)

theorem parseWalk_err {tx : Transaction} {i : Nat} {cur : Region} {e : ParseError}
    (hs : walkStep tx i cur = .err e) (hi : i < tx.message.instructions.length) :
    parseWalk tx i cur = .error e := by
  unfold parseWalk
  have h1 : tx.message.instructions.length - i = (tx.message.instructions.length - i - 1) + 1 := by
    omega
  rw [h1]
  simp only [walkGo]
  rw [if_pos hi, hs]

theorem parseTransaction_error_of_walk {tx : Transaction} {il : Option InvoiceList}
    {e : ParseError} (h0 : tx.message.instructions.length ≠ 0) (h1 : tx.signatures.length ≠ 0)
    (hw : parseWalk tx 0 {} = .error e) : ParseTransaction tx il = .error e := by
  unfold ParseTransaction
  rw [if_neg h0, if_neg (by omega), hw]

theorem walkStep_transfer_err {tx : Transaction} {i : Nat} {cur : Region}
    {t : DecompiledTransfer} (hspl : isSPL tx i = true) (hcmd : GetCommand tx.message i = 3)
    (ht : DecompileTransfer tx.message i = some t)
    (hown : t.owner = tx.message.account 0) :
    walkStep tx i cur = .err .subsidizerAsSource := by
  have hf := decompileTransfer_facts ht
  unfold walkStep
  rw [if_neg (by simp [isMemo_false_of_token hf.1]),
    if_neg (by simp [isSystem_false_of_token hf.1]),
    if_neg (by simp [isSPLAssoc_false_of_token hf.1]),
    if_pos hspl, if_pos hcmd, ht]
  dsimp only
  rw [if_pos hown]

theorem walkStep_transfer_cont {tx : Transaction} {i : Nat} {cur : Region}
    {t : DecompiledTransfer} (hspl : isSPL tx i = true) (hcmd : GetCommand tx.message i = 3)
    (ht : DecompileTransfer tx.message i = some t)
    (hown : t.owner ≠ tx.message.account 0) :
    walkStep tx i cur = .cont (i + 1) (cur.addTransfer t) := by
  have hf := decompileTransfer_facts ht
  unfold walkStep
  rw [if_neg (by simp [isMemo_false_of_token hf.1]),
    if_neg (by simp [isSystem_false_of_token hf.1]),
    if_neg (by simp [isSPLAssoc_false_of_token hf.1]),
    if_pos hspl, if_pos hcmd, ht]
  dsimp only
  rw [if_neg hown]

theorem isSystem_true_of_key {tx : Transaction} {k : Nat}
    (h : tx.message.account (tx.message.instr k).programIndex = systemProgramKey) :
    isSystem tx k = true := by
  unfold isSystem
  rw [h]
  decide

theorem isMemo_false_of_system {tx : Transaction} {k : Nat}
    (h : tx.message.account (tx.message.instr k).programIndex = systemProgramKey) :
    isMemo tx k = false := by
  unfold isMemo
  rw [h]
  decide

/-- The system-branch head of the walk with all creation checks passing and the
following instruction not decompiling as a SetAuthority: the creation is
committed without an account holder and the cursor rewinds so that the next
instruction is processed fresh. -/
theorem walkStep_sys_rewind {tx : Transaction} {i : Nat} {cur : Region}
    {ca : DecompiledCreateAccount} {ia : DecompiledInitializeAccount}
    {sa : DecompiledSetAuthority}
    (hca : DecompileCreateAccount tx.message i = some ca)
    (how : ca.owner = tokenProgramKey) (hsz : ca.size = 165)
    (hia : DecompileInitializeAccount tx.message (i + 1) = some ia)
    (haddr : ia.account = ca.address)
    (hsa : DecompileSetAuthority tx.message (i + 2) = some sa)
    (hty : sa.type = authorityTypeCloseAccount) (hsacc : sa.account = ca.address)
    (hend3 : i + 3 ≠ tx.message.instructions.length)
    (hah : DecompileSetAuthority tx.message (i + 3) = none) :
    walkStep tx i cur = .cont (i + 3) (cur.addCreation
      { create := some ca, initAccount := some ia, closeAuthority := sa }) := by
  have hf := decompileCreateAccount_facts hca
  unfold walkStep
  rw [if_neg (by simp [isMemo_false_of_system hf.1]), if_pos (isSystem_true_of_key hf.1), hca]
  dsimp only
  rw [if_neg (by simp [how]), if_neg (by simp [hsz]),
    if_neg (by have := (decompileInitializeAccount_facts hia).2; omega), hia]
  dsimp only
  rw [if_neg (by simp [haddr]),
    if_neg (by have := (decompileSetAuthority_facts hsa).2; omega), hsa]
  dsimp only
  rw [if_neg (by simp [hty]), if_neg (by simp [hsacc]), if_neg hend3, hah]

/-- The system-branch head of the walk with all creation checks passing and the
following instruction decompiling as a SetAuthority of type AccountHolder on
the created address: the instruction is consumed into the creation. -/
theorem walkStep_sys_consume {tx : Transaction} {i : Nat} {cur : Region}
    {ca : DecompiledCreateAccount} {ia : DecompiledInitializeAccount}
    {sa ah : DecompiledSetAuthority}
    (hca : DecompileCreateAccount tx.message i = some ca)
    (how : ca.owner = tokenProgramKey) (hsz : ca.size = 165)
    (hia : DecompileInitializeAccount tx.message (i + 1) = some ia)
    (haddr : ia.account = ca.address)
    (hsa : DecompileSetAuthority tx.message (i + 2) = some sa)
    (hty : sa.type = authorityTypeCloseAccount) (hsacc : sa.account = ca.address)
    (hah : DecompileSetAuthority tx.message (i + 3) = some ah)
    (hahty : ah.type = authorityTypeAccountHolder) (hahacc : ah.account = ca.address) :
    walkStep tx i cur = .cont (i + 4) (cur.addCreation
      { create := some ca, initAccount := some ia, closeAuthority := sa,
        accountHolder := some ah }) := by
  have hf := decompileCreateAccount_facts hca
  unfold walkStep
  rw [if_neg (by simp [isMemo_false_of_system hf.1]), if_pos (isSystem_true_of_key hf.1), hca]
  dsimp only
  rw [if_neg (by simp [how]), if_neg (by simp [hsz]),
    if_neg (by have := (decompileInitializeAccount_facts hia).2; omega), hia]
  dsimp only
  rw [if_neg (by simp [haddr]),
    if_neg (by have := (decompileSetAuthority_facts hsa).2; omega), hsa]
  dsimp only
  rw [if_neg (by simp [hty]), if_neg (by simp [hsacc]),
    if_neg (by have := (decompileSetAuthority_facts hah).2; omega), hah]
  dsimp only
  rw [if_neg (by simp [hahty]), if_neg (by simp [hahacc])]

theorem walkGo_err_isPostError (tx : Transaction) :
    ∀ f i cur e, walkGo tx f i cur = .error e → isPostError e = false := by
  intro f
  induction f with
  | zero =>
    intro i cur e hw
    cases hw
  | succ f ih =>
    intro i cur e hw
    simp only [walkGo] at hw
    by_cases hi : i < tx.message.instructions.length
    · rw [if_pos hi] at hw
      have hp := walkStep_props tx i cur
      cases hs : walkStep tx i cur with
      | err e0 =>
        rw [hs] at hp hw
        injection hw with hw
        subst hw
        exact hp
      | stop r =>
        rw [hs] at hw
        cases hw
      | cont j r =>
        rw [hs] at hw
        exact ih j r e hw
      | newRegion j r =>
        rw [hs] at hw
        dsimp only at hw
        cases hww : walkGo tx f j r with
        | error e2 =>
          rw [hww] at hw
          simp only [Except.map] at hw
          injection hw with hw
          subst hw
          exact ih j r e2 hww
        | ok rs =>
          rw [hww] at hw
          simp only [Except.map] at hw
          cases hw
    · rw [if_neg hi] at hw
      cases hw

theorem memoFromBase64_nil : MemoFromBase64String [] false = none := by decide

theorem appIDFromTextMemo_valid {s a : Bytes} (h : AppIDFromTextMemo s = some a) :
    IsValidAppID a = true := by
  unfold AppIDFromTextMemo at h
  by_cases h1 : (splitOnByte 45 s).length < 2
  · rw [if_pos h1] at h
    cases h
  · rw [if_neg h1] at h
    by_cases h2 : (splitOnByte 45 s).getD 0 [] ≠ [49]
    · rw [if_pos h2] at h
      cases h
    · rw [if_neg h2] at h
      by_cases h3 : ¬ IsValidAppID ((splitOnByte 45 s).getD 1 []) = true
      · rw [if_pos h3] at h
        cases h
      · rw [if_neg h3] at h
        injection h with h
        subst h
        exact not_not.mp h3

theorem isValidAppID_ne_nil {a : Bytes} (h : IsValidAppID a = true) : a ≠ [] := by
  unfold IsValidAppID at h
  by_cases h1 : a.length < 3 || a.length > 4
  · rw [if_pos h1] at h
    cases h
  · intro hcon
    subst hcon
    simp at h1

theorem textMemoID_ne_nil {r : Region} {a : Bytes} (h : textMemoID r = some a) : a ≠ [] := by
  unfold textMemoID at h
  cases hm : MemoFromBase64String r.memoData false with
  | some m =>
    rw [hm] at h
    cases h
  | none =>
    rw [hm] at h
    exact isValidAppID_ne_nil (appIDFromTextMemo_valid h)

theorem checkCreations_err {cs : List Creation} {e : ParseError}
    (h : checkCreations cs = some e) :
    e = .closeAuthorityWrongNewAuthority ∨ e = .createWithoutCreateInstruction := by
  induction cs with
  | nil => cases h
  | cons c rest ih =>
    unfold checkCreations at h
    cases hc : checkCreation c with
    | some e0 =>
      rw [hc] at h
      injection h with h
      subst h
      unfold checkCreation at hc
      cases hca : c.createAssoc with
      | some a =>
        rw [hca] at hc
        dsimp only at hc
        by_cases hne : a.subsidizer ≠ c.closeAuthority.newAuthority
        · rw [if_pos hne] at hc
          injection hc with hc
          exact Or.inl hc.symm
        · rw [if_neg hne] at hc
          cases hc
      | none =>
        rw [hca] at hc
        dsimp only at hc
        cases hcr : c.create with
        | some cr =>
          rw [hcr] at hc
          dsimp only at hc
          by_cases hne : cr.funder ≠ c.closeAuthority.newAuthority
          · rw [if_pos hne] at hc
            injection hc with hc
            exact Or.inl hc.symm
          · rw [if_neg hne] at hc
            cases hc
        | none =>
          rw [hcr] at hc
          dsimp only at hc
          injection hc with hc
          exact Or.inr hc.symm
    | none =>
      rw [hc] at h
      exact ih h

theorem checkCreations_none {cs : List Creation} (h : checkCreations cs = none) :
    ∀ c ∈ cs, checkCreation c = none := by
  induction cs with
  | nil => simp
  | cons c rest ih =>
    unfold checkCreations at h
    cases hc : checkCreation c with
    | some e0 =>
      rw [hc] at h
      cases h
    | none =>
      rw [hc] at h
      intro c2 hc2
      rcases List.mem_cons.mp hc2 with rfl | hc2
      · exact hc
      · exact ih h c2 hc2

theorem checkCreation_none {c : Creation} (h : checkCreation c = none) :
    (∀ a, c.createAssoc = some a → c.closeAuthority.newAuthority = a.subsidizer) ∧
    (c.createAssoc = none → ∀ cr, c.create = some cr →
      c.closeAuthority.newAuthority = cr.funder) := by
  unfold checkCreation at h
  cases hca : c.createAssoc with
  | some a =>
    rw [hca] at h
    dsimp only at h
    by_cases hne : a.subsidizer ≠ c.closeAuthority.newAuthority
    · rw [if_pos hne] at h
      cases h
    · refine ⟨fun a2 ha2 => ?_, fun hco => ?_⟩
      · injection ha2 with ha2
        subst ha2
        exact (not_not.mp hne).symm
      · cases hco
  | none =>
    rw [hca] at h
    dsimp only at h
    cases hcr : c.create with
    | some cr =>
      rw [hcr] at h
      dsimp only at h
      by_cases hne : cr.funder ≠ c.closeAuthority.newAuthority
      · rw [if_pos hne] at h
        cases h
      · refine ⟨fun a2 ha2 => ?_, fun _ cr2 hcr2 => ?_⟩
        · cases ha2
        · injection hcr2 with hcr2
          subst hcr2
          exact (not_not.mp hne).symm
    | none =>
      rw [hcr] at h
      dsimp only at h
      cases h

theorem okPair {ε α β : Type} {x a : α} {y b : β}
    (h : (Except.ok (x, y) : Except ε (α × β)) = .ok (a, b)) : x = a ∧ y = b := by
  injection h with h
  exact ⟨congrArg Prod.fst h, congrArg Prod.snd h⟩

theorem appIDFromTextMemo_nil : AppIDFromTextMemo [] = none := by decide

theorem processRegion_ok_facts {il : Option InvoiceList} {ridx : Nat} {r r1 : Region}
    {st st1 : PostState} (h : processRegion il ridx r st = .ok (r1, st1)) :
    checkCreations r.creations = none ∧
    stripMemo r1 = stripMemo r ∧
    st1.hasEarn = (st.hasEarn || regionHasType transactionTypeEarn r) ∧
    st1.hasSpend = (st.hasSpend || regionHasType transactionTypeSpend r) ∧
    st1.hasP2P = (st.hasP2P || regionHasType transactionTypeP2P r) ∧
    st1.appID = (match textMemoID r with
      | some a => if st.appID = [] then a else st.appID
      | none => st.appID) ∧
    (∀ a, textMemoID r = some a → st.appID = [] ∨ st.appID = a) ∧
    (∀ ilv, il = some ilv →
      st1.refCount = st.refCount + (if regionMatchesInvoice ilv r then 1 else 0) ∧
      (regionMatchesInvoice ilv r = true → ilv.invoiceCount = r.transfers.length)) ∧
    (il = none → st1.refCount = st.refCount) := by
  unfold processRegion at h
  cases hcc : checkCreations r.creations with
  | some e =>
    rw [hcc] at h
    cases h
  | none =>
    rw [hcc] at h
    dsimp only at h
    by_cases hmd : r.memoData.length = 0
    · rw [if_pos hmd] at h
      obtain ⟨rfl, rfl⟩ := okPair h
      have hnil : r.memoData = [] := List.length_eq_zero.mp hmd
      have hag : MemoFromBase64String r.memoData false = none := by
        rw [hnil]
        exact memoFromBase64_nil
      refine ⟨rfl, rfl, by simp [regionHasType, hag], by simp [regionHasType, hag],
        by simp [regionHasType, hag], by simp [textMemoID, hnil, memoFromBase64_nil, appIDFromTextMemo_nil],
        ?_, ?_, fun _ => rfl⟩
      · intro a ha
        rw [textMemoID, hag, hnil, appIDFromTextMemo_nil] at ha
        cases ha
      · intro ilv hil
        refine ⟨by simp [regionMatchesInvoice, hag], ?_⟩
        intro hmm
        rw [regionMatchesInvoice, hag] at hmm
        cases hmm
    · rw [if_neg hmd] at h
      cases hag : MemoFromBase64String r.memoData false with
      | none =>
        rw [hag] at h
        dsimp only at h
        cases hta : AppIDFromTextMemo r.memoData with
        | some appID =>
          rw [hta] at h
          dsimp only at h
          have htid : textMemoID r = some appID := by
            rw [textMemoID, hag, hta]
          by_cases hempty : st.appID = []
          · rw [if_pos hempty] at h
            obtain ⟨rfl, rfl⟩ := okPair h
            refine ⟨rfl, rfl, by simp [regionHasType, hag], by simp [regionHasType, hag],
              by simp [regionHasType, hag], ?_, ?_, ?_, fun _ => rfl⟩
            · rw [htid]
              dsimp only
              rw [if_pos hempty]
            · intro a _
              exact Or.inl hempty
            · intro ilv hil
              refine ⟨by simp [regionMatchesInvoice, hag], ?_⟩
              intro hmm
              rw [regionMatchesInvoice, hag] at hmm
              cases hmm
          · rw [if_neg hempty] at h
            by_cases hdiff : st.appID ≠ appID
            · rw [if_pos hdiff] at h
              cases h
            · rw [if_neg hdiff] at h
              obtain ⟨rfl, rfl⟩ := okPair h
              refine ⟨rfl, rfl, by simp [regionHasType, hag], by simp [regionHasType, hag],
                by simp [regionHasType, hag], ?_, ?_, ?_, fun _ => rfl⟩
              · rw [htid]
                dsimp only
                rw [if_neg hempty]
              · intro a ha
                rw [htid] at ha
                injection ha with ha
                subst ha
                exact Or.inr (not_not.mp hdiff)
              · intro ilv hil
                refine ⟨by simp [regionMatchesInvoice, hag], ?_⟩
                intro hmm
                rw [regionMatchesInvoice, hag] at hmm
                cases hmm
        | none =>
          rw [hta] at h
          dsimp only at h
          obtain ⟨rfl, rfl⟩ := okPair h
          have htid : textMemoID r = none := by
            rw [textMemoID, hag, hta]
          refine ⟨rfl, rfl, by simp [regionHasType, hag], by simp [regionHasType, hag],
            by simp [regionHasType, hag], by rw [htid], ?_, ?_, fun _ => rfl⟩
          · intro a ha
            rw [htid] at ha
            cases ha
          · intro ilv hil
            refine ⟨by simp [regionMatchesInvoice, hag], ?_⟩
            intro hmm
            rw [regionMatchesInvoice, hag] at hmm
            cases hmm
      | some m =>
        rw [hag] at h
        dsimp only at h
        have htid : textMemoID r = none := by
          rw [textMemoID, hag]
        have hht : ∀ t, regionHasType t r = (memoTransactionType m == t) := by
          intro t
          rw [regionHasType, hag]
        have hmatch : ∀ ilv, regionMatchesInvoice ilv r =
            (((memoForeignKey m).take 28 == ilv.hash) &&
              ((memoForeignKey m).getD 28 0 == 0)) := by
          intro ilv
          rw [regionMatchesInvoice, hag]
        by_cases hidx : st.appIndex > 0 ∧ memoAppIndex m ≠ st.appIndex
        · rw [if_pos hidx] at h
          cases h
        · rw [if_neg hidx] at h
          cases il with
          | none =>
            dsimp only at h
            by_cases hzero : st.appIndex = 0
            · rw [if_pos hzero] at h
              obtain ⟨rfl, rfl⟩ := okPair h
              refine ⟨rfl, rfl, by rw [hht], by rw [hht], by rw [hht], by rw [htid],
                ?_, ?_, fun _ => rfl⟩
              · intro a ha
                rw [htid] at ha
                cases ha
              · intro ilv2 hil
                cases hil
            · rw [if_neg hzero] at h
              obtain ⟨rfl, rfl⟩ := okPair h
              refine ⟨rfl, rfl, by rw [hht], by rw [hht], by rw [hht], by rw [htid],
                ?_, ?_, fun _ => rfl⟩
              · intro a ha
                rw [htid] at ha
                cases ha
              · intro ilv2 hil
                cases hil
          | some ilv =>
            dsimp only at h
            by_cases hfk : (memoForeignKey m).take 28 = ilv.hash ∧
                (memoForeignKey m).getD 28 0 = 0
            · rw [if_pos hfk] at h
              have hmt : regionMatchesInvoice ilv r = true := by
                rw [hmatch, hfk.1, hfk.2]
                simp
              by_cases hcnt : ilv.invoiceCount ≠ r.transfers.length
              · rw [if_pos hcnt] at h
                cases h
              · rw [if_neg hcnt] at h
                by_cases hzero : st.appIndex = 0
                · rw [if_pos hzero] at h
                  obtain ⟨rfl, rfl⟩ := okPair h
                  refine ⟨rfl, rfl, by rw [hht], by rw [hht], by rw [hht], by rw [htid],
                    ?_, ?_, fun hco => by cases hco⟩
                  · intro a ha
                    rw [htid] at ha
                    cases ha
                  · intro ilv2 hil
                    injection hil with hil
                    subst hil
                    refine ⟨?_, fun _ => not_not.mp hcnt⟩
                    rw [hmt]
                    simp
                · rw [if_neg hzero] at h
                  obtain ⟨rfl, rfl⟩ := okPair h
                  refine ⟨rfl, rfl, by rw [hht], by rw [hht], by rw [hht], by rw [htid],
                    ?_, ?_, fun hco => by cases hco⟩
                  · intro a ha
                    rw [htid] at ha
                    cases ha
                  · intro ilv2 hil
                    injection hil with hil
                    subst hil
                    refine ⟨?_, fun _ => not_not.mp hcnt⟩
                    rw [hmt]
                    simp
            · rw [if_neg hfk] at h
              have hmt : regionMatchesInvoice ilv r = false := by
                rw [hmatch]
                rcases not_and_or.mp hfk with hne | hne
                · rw [beq_eq_false_iff_ne.mpr hne]
                  simp
                · rw [beq_eq_false_iff_ne.mpr hne]
                  simp
              by_cases hzero : st.appIndex = 0
              · rw [if_pos hzero] at h
                obtain ⟨rfl, rfl⟩ := okPair h
                refine ⟨rfl, rfl, by rw [hht], by rw [hht], by rw [hht], by rw [htid],
                  ?_, ?_, fun hco => by cases hco⟩
                · intro a ha
                  rw [htid] at ha
                  cases ha
                · intro ilv2 hil
                  injection hil with hil
                  subst hil
                  refine ⟨?_, fun hco => by rw [hmt] at hco; cases hco⟩
                  rw [hmt]
                  simp
              · rw [if_neg hzero] at h
                obtain ⟨rfl, rfl⟩ := okPair h
                refine ⟨rfl, rfl, by rw [hht], by rw [hht], by rw [hht], by rw [htid],
                  ?_, ?_, fun hco => by cases hco⟩
                · intro a ha
                  rw [htid] at ha
                  cases ha
                · intro ilv2 hil
                  injection hil with hil
                  subst hil
                  refine ⟨?_, fun hco => by rw [hmt] at hco; cases hco⟩
                  rw [hmt]
                  simp

theorem processRegions_ok_facts {il : Option InvoiceList} :
    ∀ (rs : List Region) (ridx : Nat) (st : PostState) {rs1 : List Region} {st1 : PostState},
      processRegions il ridx rs st = .ok (rs1, st1) →
      rs1.map stripMemo = rs.map stripMemo ∧
      (∀ r ∈ rs, checkCreations r.creations = none) ∧
      st1.hasEarn = (st.hasEarn || rs.any (regionHasType transactionTypeEarn)) ∧
      st1.hasSpend = (st.hasSpend || rs.any (regionHasType transactionTypeSpend)) ∧
      st1.hasP2P = (st.hasP2P || rs.any (regionHasType transactionTypeP2P)) ∧
      (st.appID ≠ [] → st1.appID = st.appID) ∧
      (∀ r ∈ rs, ∀ a, textMemoID r = some a → st1.appID = a) ∧
      (∀ ilv, il = some ilv →
        st1.refCount = st.refCount + rs.countP (regionMatchesInvoice ilv) ∧
        (∀ r ∈ rs, regionMatchesInvoice ilv r = true →
          ilv.invoiceCount = r.transfers.length)) ∧
      (il = none → st1.refCount = st.refCount) := by
  intro rs
  induction rs with
  | nil =>
    intro ridx st rs1 st1 h
    obtain ⟨h1, h2⟩ := okPair h
    subst h1
    subst h2
    simp
  | cons r rest ih =>
    intro ridx st rs1 st1 h
    unfold processRegions at h
    cases hpr : processRegion il ridx r st with
    | error e =>
      rw [hpr] at h
      cases h
    | ok p =>
      obtain ⟨r1, st2⟩ := p
      rw [hpr] at h
      dsimp only at h
      cases hrest : processRegions il (ridx + 1) rest st2 with
      | error e =>
        rw [hrest] at h
        cases h
      | ok q =>
        obtain ⟨rs2, st3⟩ := q
        rw [hrest] at h
        dsimp only at h
        obtain ⟨h1, h2⟩ := okPair h
        subst h1
        subst h2
        obtain ⟨hc, hsm, he, hs2, hp, haid, haor, hil, hilnone⟩ := processRegion_ok_facts hpr
        obtain ⟨ihm, ihc, ihe, ihs, ihp, ihaid, ihtext, ihil, ihnone⟩ := ih (ridx + 1) st2 hrest
        refine ⟨?_, ?_, ?_, ?_, ?_, ?_, ?_, ?_, ?_⟩
        · simp only [List.map_cons]
          rw [ihm, hsm]
        · intro r2 hr2
          rcases List.mem_cons.mp hr2 with rfl | hr2
          · exact hc
          · exact ihc r2 hr2
        · rw [ihe, he]
          simp [Bool.or_assoc]
        · rw [ihs, hs2]
          simp [Bool.or_assoc]
        · rw [ihp, hp]
          simp [Bool.or_assoc]
        · intro hne
          have h2id : st2.appID = st.appID := by
            rw [haid]
            cases htid : textMemoID r with
            | none => rfl
            | some a =>
              dsimp only
              rw [if_neg hne]
          rw [ihaid (by rw [h2id]; exact hne), h2id]
        · intro r2 hr2 a ha
          rcases List.mem_cons.mp hr2 with rfl | hr2
          · have h2id : st2.appID = a := by
              rw [haid, ha]
              dsimp only
              rcases haor a ha with hemp | heq
              · rw [if_pos hemp]
              · by_cases hemp : st.appID = []
                · rw [if_pos hemp]
                · rw [if_neg hemp]
                  exact heq
            have hane : a ≠ [] := textMemoID_ne_nil ha
            rw [ihaid (by rw [h2id]; exact hane), h2id]
          · exact ihtext r2 hr2 a ha
        · intro ilv hilv
          obtain ⟨hrc, hcm⟩ := hil ilv hilv
          obtain ⟨ihrc, ihcm⟩ := ihil ilv hilv
          refine ⟨?_, ?_⟩
          · rw [ihrc, hrc, List.countP_cons]
            by_cases hb : regionMatchesInvoice ilv r = true
            · simp only [hb, if_pos]
              omega
            · rw [Bool.not_eq_true] at hb
              simp only [hb]
              omega
          · intro r2 hr2 hm2
            rcases List.mem_cons.mp hr2 with rfl | hr2
            · exact hcm hm2
            · exact ihcm r2 hr2 hm2
        · intro hnone
          rw [ihnone hnone, hilnone hnone]

theorem parseTransaction_ok_parts {tx : Transaction} {il : Option InvoiceList} {parsed : Tx}
    (h : ParseTransaction tx il = .ok parsed) :
    ∃ rs rs1 st, parseWalk tx 0 {} = .ok rs ∧
      processRegions il 0 rs {} = .ok (rs1, st) ∧
      (st.hasEarn && (st.hasSpend || st.hasP2P)) = false ∧
      (il.isSome = true → st.refCount = 1) ∧
      parsed = { appIndex := st.appIndex, appID := st.appID, regions := rs1 } ∧
      tx.message.instructions.length ≠ 0 ∧ tx.signatures.length ≠ 0 := by
  unfold ParseTransaction at h
  by_cases h0 : tx.message.instructions.length = 0
  · rw [if_pos h0] at h
    cases h
  · rw [if_neg h0] at h
    by_cases h1 : tx.signatures.length = 0
    · rw [if_pos h1] at h
      cases h
    · rw [if_neg h1] at h
      cases hw : parseWalk tx 0 {} with
      | error e =>
        rw [hw] at h
        cases h
      | ok rs =>
        rw [hw] at h
        dsimp only at h
        cases hpr : processRegions il 0 rs {} with
        | error e =>
          rw [hpr] at h
          cases h
        | ok q =>
          obtain ⟨rs1, st⟩ := q
          rw [hpr] at h
          dsimp only at h
          by_cases hmix : (st.hasEarn && (st.hasSpend || st.hasP2P)) = true
          · rw [if_pos hmix] at h
            cases h
          · rw [if_neg hmix] at h
            by_cases hrc : il.isSome = true ∧ st.refCount ≠ 1
            · rw [if_pos hrc] at h
              cases h
            · rw [if_neg hrc] at h
              injection h with h
              refine ⟨rs, rs1, st, rfl, hpr, by simpa using hmix, ?_, h.symm, h0, h1⟩
              intro his
              by_cases hone : st.refCount = 1
              · exact hone
              · exact absurd ⟨his, hone⟩ hrc

theorem processRegion_err_enum {il : Option InvoiceList} {ridx : Nat} {r : Region}
    {st : PostState} {e : ParseError} (h : processRegion il ridx r st = .error e) :
    e = .closeAuthorityWrongNewAuthority ∨ e = .createWithoutCreateInstruction ∨
    e = .multipleAppIDs ∨ e = .multipleAppIndexes ∨
    ∃ a b c, e = .invoiceCountMismatch a b c := by
  unfold processRegion at h
  cases hcc : checkCreations r.creations with
  | some e0 =>
    rw [hcc] at h
    injection h with h
    subst h
    rcases checkCreations_err hcc with h2 | h2
    · exact Or.inl h2
    · exact Or.inr (Or.inl h2)
  | none =>
    rw [hcc] at h
    dsimp only at h
    by_cases hmd : r.memoData.length = 0
    · rw [if_pos hmd] at h
      cases h
    · rw [if_neg hmd] at h
      cases hag : MemoFromBase64String r.memoData false with
      | none =>
        rw [hag] at h
        dsimp only at h
        cases hta : AppIDFromTextMemo r.memoData with
        | some appID =>
          rw [hta] at h
          dsimp only at h
          by_cases hemp : st.appID = []
          · rw [if_pos hemp] at h
            cases h
          · rw [if_neg hemp] at h
            by_cases hdiff : st.appID ≠ appID
            · rw [if_pos hdiff] at h
              injection h with h
              subst h
              exact Or.inr (Or.inr (Or.inl rfl))
            · rw [if_neg hdiff] at h
              cases h
        | none =>
          rw [hta] at h
          dsimp only at h
          cases h
      | some m =>
        rw [hag] at h
        dsimp only at h
        by_cases hidx : st.appIndex > 0 ∧ memoAppIndex m ≠ st.appIndex
        · rw [if_pos hidx] at h
          injection h with h
          subst h
          exact Or.inr (Or.inr (Or.inr (Or.inl rfl)))
        · rw [if_neg hidx] at h
          cases il with
          | none =>
            dsimp only at h
            cases h
          | some ilv =>
            dsimp only at h
            by_cases hfk : (memoForeignKey m).take 28 = ilv.hash ∧
                (memoForeignKey m).getD 28 0 = 0
            · rw [if_pos hfk] at h
              by_cases hcnt : ilv.invoiceCount ≠ r.transfers.length
              · rw [if_pos hcnt] at h
                injection h with h
                subst h
                exact Or.inr (Or.inr (Or.inr (Or.inr ⟨_, _, _, rfl⟩)))
              · rw [if_neg hcnt] at h
                cases h
            · rw [if_neg hfk] at h
              cases h

theorem processRegions_err_enum {il : Option InvoiceList} :
    ∀ (rs : List Region) (ridx : Nat) (st : PostState) {e : ParseError},
      processRegions il ridx rs st = .error e →
      e = .closeAuthorityWrongNewAuthority ∨ e = .createWithoutCreateInstruction ∨
      e = .multipleAppIDs ∨ e = .multipleAppIndexes ∨
      ∃ a b c, e = .invoiceCountMismatch a b c := by
  intro rs
  induction rs with
  | nil =>
    intro ridx st e h
    cases h
  | cons r rest ih =>
    intro ridx st e h
    unfold processRegions at h
    cases hpr : processRegion il ridx r st with
    | error e0 =>
      rw [hpr] at h
      injection h with h
      subst h
      exact processRegion_err_enum hpr
    | ok p =>
      obtain ⟨r1, st2⟩ := p
      rw [hpr] at h
      dsimp only at h
      cases hrest : processRegions il (ridx + 1) rest st2 with
      | error e0 =>
        rw [hrest] at h
        injection h with h
        subst h
        exact ih (ridx + 1) st2 hrest
      | ok q =>
        rw [hrest] at h
        dsimp only at h
        cases h

theorem processRegion_err_appIDs {il : Option InvoiceList} {ridx : Nat} {r : Region}
    {st : PostState} (h : processRegion il ridx r st = .error .multipleAppIDs) :
    ∃ a, textMemoID r = some a ∧ st.appID ≠ [] ∧ st.appID ≠ a := by
  unfold processRegion at h
  cases hcc : checkCreations r.creations with
  | some e0 =>
    rw [hcc] at h
    injection h with h
    subst h
    rcases checkCreations_err hcc with h2 | h2 <;> cases h2
  | none =>
    rw [hcc] at h
    dsimp only at h
    by_cases hmd : r.memoData.length = 0
    · rw [if_pos hmd] at h
      cases h
    · rw [if_neg hmd] at h
      cases hag : MemoFromBase64String r.memoData false with
      | none =>
        rw [hag] at h
        dsimp only at h
        cases hta : AppIDFromTextMemo r.memoData with
        | some appID =>
          rw [hta] at h
          dsimp only at h
          by_cases hemp : st.appID = []
          · rw [if_pos hemp] at h
            cases h
          · rw [if_neg hemp] at h
            by_cases hdiff : st.appID ≠ appID
            · exact ⟨appID, by rw [textMemoID, hag, hta], hemp, hdiff⟩
            · rw [if_neg hdiff] at h
              cases h
        | none =>
          rw [hta] at h
          dsimp only at h
          cases h
      | some m =>
        rw [hag] at h
        dsimp only at h
        by_cases hidx : st.appIndex > 0 ∧ memoAppIndex m ≠ st.appIndex
        · rw [if_pos hidx] at h
          cases h
        · rw [if_neg hidx] at h
          cases il with
          | none =>
            dsimp only at h
            cases h
          | some ilv =>
            dsimp only at h
            by_cases hfk : (memoForeignKey m).take 28 = ilv.hash ∧
                (memoForeignKey m).getD 28 0 = 0
            · rw [if_pos hfk] at h
              by_cases hcnt : ilv.invoiceCount ≠ r.transfers.length
              · rw [if_pos hcnt] at h
                cases h
              · rw [if_neg hcnt] at h
                cases h
            · rw [if_neg hfk] at h
              cases h

theorem processRegions_err_appIDs {il : Option InvoiceList} :
    ∀ (rs : List Region) (ridx : Nat) (st : PostState) (acc : List Bytes),
      (st.appID = [] ∨ st.appID ∈ acc) →
      processRegions il ridx rs st = .error .multipleAppIDs →
      ∃ a, (a ∈ acc ∨ a ∈ rs.filterMap textMemoID) ∧
        ∃ b ∈ rs.filterMap textMemoID, a ≠ b := by
  intro rs
  induction rs with
  | nil =>
    intro ridx st acc hinv h
    cases h
  | cons r rest ih =>
    intro ridx st acc hinv h
    unfold processRegions at h
    cases hpr : processRegion il ridx r st with
    | error e0 =>
      rw [hpr] at h
      injection h with h
      subst h
      obtain ⟨a, hta, hne, hnea⟩ := processRegion_err_appIDs hpr
      rcases hinv with hinv | hinv
      · exact absurd hinv hne
      · refine ⟨st.appID, Or.inl hinv, a, ?_, hnea⟩
        rw [List.filterMap_cons, hta]
        exact List.mem_cons_self a _
    | ok p =>
      obtain ⟨r1, st2⟩ := p
      rw [hpr] at h
      dsimp only at h
      cases hrest : processRegions il (ridx + 1) rest st2 with
      | error e0 =>
        rw [hrest] at h
        injection h with h
        subst h
        obtain ⟨_, _, _, _, _, haid, _, _, _⟩ := processRegion_ok_facts hpr
        have hinv2 : st2.appID = [] ∨ st2.appID ∈ acc ++ (textMemoID r).toList := by
          rw [haid]
          cases htid : textMemoID r with
          | none =>
            rcases hinv with hinv | hinv
            · exact Or.inl hinv
            · exact Or.inr (List.mem_append_left _ hinv)
          | some a =>
            dsimp only
            by_cases hemp : st.appID = []
            · rw [if_pos hemp]
              refine Or.inr (List.mem_append_right _ ?_)
              simp [Option.toList]
            · rw [if_neg hemp]
              rcases hinv with hinv | hinv
              · exact absurd hinv hemp
              · exact Or.inr (List.mem_append_left _ hinv)
        obtain ⟨a, hmem, b, hbmem, hab⟩ :=
          ih (ridx + 1) st2 (acc ++ (textMemoID r).toList) hinv2 hrest
        refine ⟨a, ?_, b, ?_, hab⟩
        · rcases hmem with hmem | hmem
          · rcases List.mem_append.mp hmem with hmem | hmem
            · exact Or.inl hmem
            · refine Or.inr ?_
              rw [List.filterMap_cons]
              cases htid : textMemoID r with
              | none =>
                rw [htid] at hmem
                cases hmem
              | some a0 =>
                rw [htid] at hmem
                simp [Option.toList] at hmem
                subst hmem
                exact List.mem_cons_self _ _
          · refine Or.inr ?_
            rw [List.filterMap_cons]
            cases htid : textMemoID r with
            | none => exact hmem
            | some a0 => exact List.mem_cons_of_mem a0 hmem
        · rw [List.filterMap_cons]
          cases htid : textMemoID r with
          | none => exact hbmem
          | some a0 => exact List.mem_cons_of_mem a0 hbmem
      | ok q =>
        rw [hrest] at h
        dsimp only at h
        cases h

theorem countMemos_ge {tx : Transaction} {i : Nat}
    (h : tx.message.instructions.length ≤ i) : countMemos tx i = 0 := by
  unfold countMemos
  have he : tx.message.instructions.length - i = 0 := by omega
  rw [he]
  rfl

theorem memoDatas_ge {tx : Transaction} {i : Nat}
    (h : tx.message.instructions.length ≤ i) : memoDatas tx i = [] := by
  unfold memoDatas
  have he : tx.message.instructions.length - i = 0 := by omega
  rw [he]
  rfl

theorem nextMemo_ge {tx : Transaction} {i : Nat}
    (h : tx.message.instructions.length ≤ i) : nextMemo tx i = none := by
  unfold nextMemo
  have he : tx.message.instructions.length - i = 0 := by omega
  rw [he]
  rfl

theorem countMemos_lt {tx : Transaction} {i : Nat}
    (h : i < tx.message.instructions.length) :
    countMemos tx i = (if isMemo tx i then 1 else 0) + countMemos tx (i + 1) := by
  unfold countMemos
  have he : tx.message.instructions.length - i =
      (tx.message.instructions.length - (i + 1)) + 1 := by omega
  rw [he]
  simp only [countMemosGo]
  rw [if_pos h]

theorem memoDatas_lt {tx : Transaction} {i : Nat}
    (h : i < tx.message.instructions.length) :
    memoDatas tx i =
      (if isMemo tx i then [(tx.message.instr i).data] else []) ++ memoDatas tx (i + 1) := by
  unfold memoDatas
  have he : tx.message.instructions.length - i =
      (tx.message.instructions.length - (i + 1)) + 1 := by omega
  rw [he]
  simp only [memoDatasGo]
  rw [if_pos h]

theorem nextMemo_lt {tx : Transaction} {i : Nat}
    (h : i < tx.message.instructions.length) :
    nextMemo tx i = (if isMemo tx i then some i else nextMemo tx (i + 1)) := by
  unfold nextMemo
  have he : tx.message.instructions.length - i =
      (tx.message.instructions.length - (i + 1)) + 1 := by omega
  rw [he]
  simp only [nextMemoGo]
  rw [if_pos h]

theorem memoScan_skip (tx : Transaction) :
    ∀ d i, (∀ k, i ≤ k → k < i + d → isMemo tx k = false) →
      nextMemo tx i = nextMemo tx (i + d) ∧
      countMemos tx i = countMemos tx (i + d) ∧
      memoDatas tx i = memoDatas tx (i + d) := by
  intro d
  induction d with
  | zero =>
    intro i _
    exact ⟨rfl, rfl, rfl⟩
  | succ d ih =>
    intro i hmem
    by_cases hi : i < tx.message.instructions.length
    · have hm0 : isMemo tx i = false := hmem i (by omega) (by omega)
      have hrest := ih (i + 1) (fun k hk1 hk2 => hmem k (by omega) (by omega))
      have harr : i + 1 + d = i + (d + 1) := by omega
      rw [harr] at hrest
      refine ⟨?_, ?_, ?_⟩
      · rw [nextMemo_lt hi, if_neg (by simp [hm0])]
        exact hrest.1
      · rw [countMemos_lt hi, if_neg (by simp [hm0])]
        simpa using hrest.2.1
      · rw [memoDatas_lt hi, if_neg (by simp [hm0])]
        simpa using hrest.2.2
    · rw [nextMemo_ge (by omega), nextMemo_ge (by omega), countMemos_ge (by omega),
        countMemos_ge (by omega), memoDatas_ge (by omega), memoDatas_ge (by omega)]
      exact ⟨rfl, rfl, rfl⟩

theorem segItemsGo_irrel (tx : Transaction) :
    ∀ f g i cur, tx.message.instructions.length ≤ f + i →
      tx.message.instructions.length ≤ g + i →
      segItemsGo tx f i cur = segItemsGo tx g i cur := by
  intro f
  induction f with
  | zero =>
    intro g i cur hf hg
    cases g with
    | zero => rfl
    | succ g =>
      simp only [segItemsGo]
      rw [if_neg (by omega)]
  | succ f ih =>
    intro g i cur hf hg
    cases g with
    | zero =>
      simp only [segItemsGo]
      rw [if_neg (by omega)]
    | succ g =>
      simp only [segItemsGo]
      by_cases hi : i < tx.message.instructions.length
      · rw [if_pos hi, if_pos hi]
        by_cases hm : isMemo tx i
        · rw [if_pos hm, if_pos hm]
        · rw [if_neg hm, if_neg hm]
          have hp := walkStep_props tx i cur
          cases hs : walkStep tx i cur with
          | err e => rfl
          | stop r => rfl
          | cont j r =>
            rw [hs] at hp
            obtain ⟨⟨hj1, hj2⟩, _⟩ := hp
            exact ih g j r (by omega) (by omega)
          | newRegion j r => rfl
      · rw [if_neg hi, if_neg hi]

theorem segItems_ge {tx : Transaction} {i : Nat} {cur : Region}
    (h : tx.message.instructions.length ≤ i) : segItems tx i cur = .ok cur := by
  unfold segItems
  have he : tx.message.instructions.length - i = 0 := by omega
  rw [he]
  rfl

theorem segItems_memo {tx : Transaction} {i : Nat} {cur : Region}
    (hi : i < tx.message.instructions.length) (hm : isMemo tx i = true) :
    segItems tx i cur = .ok cur := by
  unfold segItems
  have he : tx.message.instructions.length - i =
      (tx.message.instructions.length - (i + 1)) + 1 := by omega
  rw [he]
  simp only [segItemsGo]
  rw [if_pos hi, if_pos hm]

theorem segItems_stop {tx : Transaction} {i : Nat} {cur : Region} {r : Region}
    (hi : i < tx.message.instructions.length) (hm : isMemo tx i = false)
    (hs : walkStep tx i cur = .stop r) : segItems tx i cur = .ok r := by
  unfold segItems
  have he : tx.message.instructions.length - i =
      (tx.message.instructions.length - (i + 1)) + 1 := by omega
  rw [he]
  simp only [segItemsGo]
  rw [if_pos hi, if_neg (by simp [hm]), hs]

theorem segItems_cont {tx : Transaction} {i : Nat} {cur : Region} {j : Nat} {r : Region}
    (hi : i < tx.message.instructions.length) (hm : isMemo tx i = false)
    (hs : walkStep tx i cur = .cont j r) : segItems tx i cur = segItems tx j r := by
  unfold segItems
  have he : tx.message.instructions.length - i =
      (tx.message.instructions.length - (i + 1)) + 1 := by omega
  rw [he]
  simp only [segItemsGo]
  rw [if_pos hi, if_neg (by simp [hm]), hs]
  have hp := walkStep_props tx i cur
  rw [hs] at hp
  obtain ⟨⟨hj1, hj2⟩, _⟩ := hp
  exact segItemsGo_irrel tx _ _ j r (by omega) (by omega)

theorem SegRel_shift {tx : Transaction} {i j : Nat} {cur r2 : Region}
    (h1 : segItems tx i cur = segItems tx j r2) (h2 : nextMemo tx i = nextMemo tx j)
    {rs : List Region} (h : SegRel tx j r2 rs) : SegRel tx i cur rs := by
  cases h with
  | last _ _ r hseg hnm =>
    exact SegRel.last i cur r (h1.trans hseg) (h2.trans hnm)
  | cons _ _ r j2 d rest hseg hnm hd hrest =>
    exact SegRel.cons i cur r j2 d rest (h1.trans hseg) (h2.trans hnm) hd hrest

theorem decompileMemo_data {m : Message} {k : Nat} {d : Bytes}
    (h : DecompileMemo m k = some d) : d = (m.instr k).data := by
  unfold DecompileMemo at h
  by_cases h1 : k ≥ m.instructions.length
  · rw [if_pos h1] at h
    cases h
  · rw [if_neg h1] at h
    by_cases h2 : m.account (m.instr k).programIndex ≠ memoProgramKey
    · rw [if_pos h2] at h
      cases h
    · rw [if_neg h2] at h
      injection h with h
      exact h.symm

theorem walkGo_ok_struct (tx : Transaction) :
    ∀ f i cur rs, tx.message.instructions.length ≤ f + i →
      walkGo tx f i cur = .ok rs →
      SegRel tx i cur rs ∧
      rs.length = countMemos tx i + 1 ∧
      rs.map Region.memoData = cur.memoData :: memoDatas tx i ∧
      (∀ r ∈ rs, r.memo = cur.memo ∨ r.memo = none) := by
  intro f
  induction f with
  | zero =>
    intro i cur rs hf hw
    injection hw with hw
    subst hw
    refine ⟨SegRel.last i cur cur (segItems_ge (by omega)) (nextMemo_ge (by omega)),
      by rw [countMemos_ge (by omega)]; rfl, by rw [memoDatas_ge (by omega)]; rfl, ?_⟩
    intro r hr
    rcases List.mem_singleton.mp hr with rfl
    exact Or.inl rfl
  | succ f ih =>
    intro i cur rs hf hw
    simp only [walkGo] at hw
    by_cases hi : i < tx.message.instructions.length
    · rw [if_pos hi] at hw
      have hp := walkStep_props tx i cur
      cases hs : walkStep tx i cur with
      | err e =>
        rw [hs] at hw
        cases hw
      | stop r =>
        rw [hs] at hw hp
        injection hw with hw
        subst hw
        obtain ⟨hlen3, hcb, hmd, hmm⟩ := hp
        have hm0 : isMemo tx i = false := (hcb i (by omega) (by omega)).2.2
        have hnomemo : ∀ k, i ≤ k → k < i + 3 → isMemo tx k = false := by
          intro k hk1 hk2
          exact (hcb k hk1 (by omega)).2.2
        have hskip := memoScan_skip tx 3 i hnomemo
        refine ⟨SegRel.last i cur r (segItems_stop hi hm0 hs) ?_, ?_, ?_, ?_⟩
        · rw [hskip.1]
          exact nextMemo_ge (by omega)
        · rw [hskip.2.1, countMemos_ge (by omega)]
          rfl
        · rw [hskip.2.2, memoDatas_ge (by omega)]
          simp [hmd]
        · intro r2 hr2
          rcases List.mem_singleton.mp hr2 with rfl
          exact Or.inl hmm
      | cont j r =>
        rw [hs] at hw hp
        obtain ⟨⟨hj1, hj2⟩, hcb, hmd, hmm⟩ := hp
        have hm0 : isMemo tx i = false := (hcb i (by omega) (by omega)).2.2
        have hnomemo : ∀ k, i ≤ k → k < i + (j - i) → isMemo tx k = false := by
          intro k hk1 hk2
          exact (hcb k hk1 (by omega)).2.2
        have hskip := memoScan_skip tx (j - i) i hnomemo
        have hij : i + (j - i) = j := by omega
        rw [hij] at hskip
        obtain ⟨ihrel, ihlen, ihmap, ihmemo⟩ := ih j r rs (by omega) hw
        refine ⟨SegRel_shift (segItems_cont hi hm0 hs) hskip.1 ihrel, ?_, ?_, ?_⟩
        · rw [hskip.2.1]
          exact ihlen
        · rw [hskip.2.2, ← hmd]
          exact ihmap
        · intro r2 hr2
          rcases ihmemo r2 hr2 with h2 | h2
          · rw [h2, hmm]
            exact Or.inl rfl
          · exact Or.inr h2
      | newRegion j r =>
        rw [hs] at hw hp
        obtain ⟨rfl, hmem, d, hd, rfl⟩ := hp
        obtain ⟨rs0, hrs0, rfl⟩ := exceptMap_ok hw
        obtain ⟨ihrel, ihlen, ihmap, ihmemo⟩ := ih (i + 1) _ rs0 (by omega) hrs0
        have hdd := decompileMemo_data hd
        refine ⟨SegRel.cons i cur cur i d rs0 (segItems_memo hi hmem) ?_ hd ihrel,
          ?_, ?_, ?_⟩
        · rw [nextMemo_lt hi, if_pos hmem]
        · simp only [List.length_cons]
          rw [countMemos_lt hi, if_pos hmem, ihlen]
          omega
        · simp only [List.map_cons]
          rw [memoDatas_lt hi, if_pos hmem, ihmap]
          simp [hdd]
        · intro r2 hr2
          rcases List.mem_cons.mp hr2 with rfl | hr2
          · exact Or.inl rfl
          · rcases ihmemo r2 hr2 with h2 | h2
            · exact Or.inr h2
            · exact Or.inr h2
    · rw [if_neg hi] at hw
      injection hw with hw
      subst hw
      refine ⟨SegRel.last i cur cur (segItems_ge (by omega)) (nextMemo_ge (by omega)),
        by rw [countMemos_ge (by omega)]; rfl, by rw [memoDatas_ge (by omega)]; rfl, ?_⟩
      intro r hr
      rcases List.mem_singleton.mp hr with rfl
      exact Or.inl rfl

theorem parseWalk_memo {tx : Transaction} {i : Nat} {cur : Region} {j : Nat} {r : Region}
    (hs : walkStep tx i cur = .newRegion j r) (hi : i < tx.message.instructions.length) :
    parseWalk tx i cur = (parseWalk tx j r).map (cur :: ·) := by
  unfold parseWalk
  have h1 : tx.message.instructions.length - i = (tx.message.instructions.length - i - 1) + 1 := by
    omega
  rw [h1]
  simp only [walkGo]
  rw [if_pos hi, hs]
  have hp := walkStep_props tx i cur
  rw [hs] at hp
  obtain ⟨rfl, _⟩ := hp
  dsimp only
  rw [walkGo_irrel tx (tx.message.instructions.length - i - 1)
    (tx.message.instructions.length - (i + 1)) (i + 1) r (by omega) (by omega)]

theorem walkReaches_error {tx : Transaction} {i : Nat} {cur : Region} {e : ParseError}
    (hr : WalkReaches tx i cur) (he : parseWalk tx i cur = .error e) :
    parseWalk tx 0 {} = .error e := by
  induction hr with
  | start => exact he
  | step i0 cur0 j r _ hi hs ih =>
    exact ih ((parseWalk_cont hs hi).trans he)
  | memo i0 cur0 j r _ hi hs ih =>
    refine ih ?_
    rw [parseWalk_memo hs hi, he]
    rfl

theorem isSPL_true_of_key {tx : Transaction} {k : Nat}
    (h : tx.message.account (tx.message.instr k).programIndex = tokenProgramKey) :
    isSPL tx k = true := by
  unfold isSPL
  rw [h]
  decide

theorem checkCreation_none_create {c : Creation} (h : checkCreation c = none)
    (hna : c.createAssoc = none) :
    ∃ cr, c.create = some cr ∧ c.closeAuthority.newAuthority = cr.funder := by
  unfold checkCreation at h
  rw [hna] at h
  dsimp only at h
  cases hcr : c.create with
  | some cr =>
    rw [hcr] at h
    dsimp only at h
    by_cases hne : cr.funder ≠ c.closeAuthority.newAuthority
    · rw [if_pos hne] at h
      cases h
    · exact ⟨cr, rfl, (not_not.mp hne).symm⟩
  | none =>
    rw [hcr] at h
    dsimp only at h
    cases h

theorem processRegion_err_countMismatch {ilv : InvoiceList} {ridx : Nat} {r : Region}
    {st : PostState} {iv tr rg : Nat}
    (h : processRegion (some ilv) ridx r st = .error (.invoiceCountMismatch iv tr rg)) :
    regionMatchesInvoice ilv r = true ∧ iv = ilv.invoiceCount ∧
    tr = r.transfers.length ∧ iv ≠ tr := by
  unfold processRegion at h
  cases hcc : checkCreations r.creations with
  | some e0 =>
    rw [hcc] at h
    injection h with h
    rcases checkCreations_err hcc with h2 | h2 <;> rw [h2] at h <;> cases h
  | none =>
    rw [hcc] at h
    dsimp only at h
    by_cases hmd : r.memoData.length = 0
    · rw [if_pos hmd] at h
      cases h
    · rw [if_neg hmd] at h
      cases hag : MemoFromBase64String r.memoData false with
      | none =>
        rw [hag] at h
        dsimp only at h
        cases hta : AppIDFromTextMemo r.memoData with
        | some appID =>
          rw [hta] at h
          dsimp only at h
          by_cases hemp : st.appID = []
          · rw [if_pos hemp] at h
            cases h
          · rw [if_neg hemp] at h
            by_cases hdiff : st.appID ≠ appID
            · rw [if_pos hdiff] at h
              cases h
            · rw [if_neg hdiff] at h
              cases h
        | none =>
          rw [hta] at h
          dsimp only at h
          cases h
      | some m =>
        rw [hag] at h
        dsimp only at h
        by_cases hidx : st.appIndex > 0 ∧ memoAppIndex m ≠ st.appIndex
        · rw [if_pos hidx] at h
          cases h
        · rw [if_neg hidx] at h
          by_cases hfk : (memoForeignKey m).take 28 = ilv.hash ∧
              (memoForeignKey m).getD 28 0 = 0
          · rw [if_pos hfk] at h
            by_cases hcnt : ilv.invoiceCount ≠ r.transfers.length
            · rw [if_pos hcnt] at h
              injection h with h
              injection h with h1 h2 h3
              subst h1
              subst h2
              refine ⟨?_, rfl, rfl, hcnt⟩
              unfold regionMatchesInvoice
              rw [hag]
              dsimp only
              rw [hfk.1, hfk.2]
              simp
            · rw [if_neg hcnt] at h
              cases h
          · rw [if_neg hfk] at h
            cases h

theorem processRegions_err_countMismatch {ilv : InvoiceList} :
    ∀ (rs : List Region) (ridx : Nat) (st : PostState) {iv tr rg : Nat},
      processRegions (some ilv) ridx rs st = .error (.invoiceCountMismatch iv tr rg) →
      ∃ r ∈ rs, regionMatchesInvoice ilv r = true ∧ iv = ilv.invoiceCount ∧
        tr = r.transfers.length ∧ iv ≠ tr := by
  intro rs
  induction rs with
  | nil =>
    intro ridx st iv tr rg h
    cases h
  | cons r rest ih =>
    intro ridx st iv tr rg h
    unfold processRegions at h
    cases hpr : processRegion (some ilv) ridx r st with
    | error e0 =>
      rw [hpr] at h
      injection h with h
      subst h
      exact ⟨r, List.mem_cons_self _ _, processRegion_err_countMismatch hpr⟩
    | ok p =>
      obtain ⟨r1, st2⟩ := p
      rw [hpr] at h
      dsimp only at h
      cases hrest : processRegions (some ilv) (ridx + 1) rest st2 with
      | error e0 =>
        rw [hrest] at h
        injection h with h
        subst h
        obtain ⟨r2, hr2, hfacts⟩ := ih (ridx + 1) st2 hrest
        exact ⟨r2, List.mem_cons_of_mem r hr2, hfacts⟩
      | ok q =>
        rw [hrest] at h
        dsimp only at h
        cases h

theorem parseTransaction_err_parts {tx : Transaction} {il : Option InvoiceList} {e : ParseError}
    (h : ParseTransaction tx il = .error e) (hp : isPostError e = true) :
    tx.message.instructions.length ≠ 0 ∧ tx.signatures.length ≠ 0 ∧
    ∃ rs, parseWalk tx 0 {} = .ok rs ∧
      (processRegions il 0 rs {} = .error e ∨
       ∃ rs1 st, processRegions il 0 rs {} = .ok (rs1, st) ∧
         (((st.hasEarn && (st.hasSpend || st.hasP2P)) = true ∧ e = .mixedTransactionTypes) ∨
          ((st.hasEarn && (st.hasSpend || st.hasP2P)) = false ∧ il.isSome = true ∧
            st.refCount ≠ 1 ∧ e = .invoiceRegionMatchCount st.refCount))) := by
  unfold ParseTransaction at h
  by_cases h0 : tx.message.instructions.length = 0
  · rw [if_pos h0] at h
    injection h with h
    subst h
    cases hp
  · rw [if_neg h0] at h
    by_cases h1 : tx.signatures.length = 0
    · rw [if_pos h1] at h
      injection h with h
      subst h
      cases hp
    · rw [if_neg h1] at h
      cases hw : parseWalk tx 0 {} with
      | error e0 =>
        rw [hw] at h
        injection h with h
        subst h
        rw [walkGo_err_isPostError tx _ 0 {} e0 hw] at hp
        cases hp
      | ok rs =>
        rw [hw] at h
        dsimp only at h
        refine ⟨h0, h1, rs, rfl, ?_⟩
        cases hpr : processRegions il 0 rs {} with
        | error e0 =>
          rw [hpr] at h
          injection h with h
          subst h
          exact Or.inl rfl
        | ok q =>
          obtain ⟨rs1, st⟩ := q
          rw [hpr] at h
          dsimp only at h
          refine Or.inr ⟨rs1, st, rfl, ?_⟩
          by_cases hmix : (st.hasEarn && (st.hasSpend || st.hasP2P)) = true
          · rw [if_pos hmix] at h
            injection h with h
            exact Or.inl ⟨hmix, h.symm⟩
          · rw [if_neg hmix] at h
            by_cases hrc : il.isSome = true ∧ st.refCount ≠ 1
            · rw [if_pos hrc] at h
              injection h with h
              exact Or.inr ⟨by simpa using hmix, hrc.1, hrc.2, h.symm⟩
            · rw [if_neg hrc] at h
              cases h

/-- C1: for every transaction ParseTransaction accepts, every system-program
instruction satisfies the bare-creation conditions (a CreateAccount owned by
the token program of size 165, an InitializeAccount of the created address,
then a SetAuthority of type CloseAccount on it, and any SetAuthority right
after of type AccountHolder on the same address), every
associated-token-program instruction satisfies the associated-creation
conditions, every recorded creation carries a close authority whose new
authority is the creation subsidizer or funder, and the walk consumes a
following AccountHolder SetAuthority into the creation while a following
instruction that is no SetAuthority leaves the cursor at that instruction to
be processed fresh. -/
theorem creation_validation_spec (tx : Transaction) (il : Option InvoiceList) (parsed : Tx)
    (h : ParseTransaction tx il = .ok parsed) :
    (∀ k, k < tx.message.instructions.length →
      (isSystem tx k = true → SysCreationCond tx k) ∧
      (isSPLAssoc tx k = true → AssocCreationCond tx k)) ∧
    (∀ r ∈ parsed.regions, ∀ c ∈ r.creations,
      (∀ a, c.createAssoc = some a → c.closeAuthority.newAuthority = a.subsidizer) ∧
      (c.createAssoc = none →
        ∃ cr, c.create = some cr ∧ c.closeAuthority.newAuthority = cr.funder)) ∧
    (∀ i cur ca ia sa,
      DecompileCreateAccount tx.message i = some ca → ca.owner = tokenProgramKey →
      ca.size = 165 → DecompileInitializeAccount tx.message (i + 1) = some ia →
      ia.account = ca.address → DecompileSetAuthority tx.message (i + 2) = some sa →
      sa.type = authorityTypeCloseAccount → sa.account = ca.address →
      (DecompileSetAuthority tx.message (i + 3) = none →
        i + 3 ≠ tx.message.instructions.length →
        walkStep tx i cur = .cont (i + 3) (cur.addCreation
          { create := some ca, initAccount := some ia, closeAuthority := sa })) ∧
      (∀ ah, DecompileSetAuthority tx.message (i + 3) = some ah →
        ah.type = authorityTypeAccountHolder → ah.account = ca.address →
        walkStep tx i cur = .cont (i + 4) (cur.addCreation
          { create := some ca, initAccount := some ia, closeAuthority := sa,
            accountHolder := some ah }))) := by
  obtain ⟨rs, rs1, st, hw, hpr, _, _, hparsed, h0, h1⟩ := parseTransaction_ok_parts h
  refine ⟨?_, ?_, ?_⟩
  · intro k hk
    have hw2 := hw
    unfold parseWalk at hw2
    exact walkGo_ok_cond tx _ 0 {} rs (by omega) hw2 k (by omega) hk
  · obtain ⟨hmap, hcc, _⟩ := processRegions_ok_facts rs 0 {} hpr
    subst hparsed
    intro r1 hr1 c hc
    have hmem : stripMemo r1 ∈ rs1.map stripMemo := List.mem_map_of_mem _ hr1
    rw [hmap] at hmem
    obtain ⟨r, hr, heq⟩ := List.mem_map.mp hmem
    have hcr0 := congrArg Region.creations heq
    have hcr : r.creations = r1.creations := hcr0
    have hccr1 := hcc r hr
    rw [hcr] at hccr1
    have hall := checkCreations_none hccr1 c hc
    exact ⟨fun a ha => (checkCreation_none hall).1 a ha,
      fun hna => checkCreation_none_create hall hna⟩
  · intro i cur ca ia sa hca how hsz hia haddr hsa hty hsacc
    constructor
    · intro hah hend3
      exact walkStep_sys_rewind hca how hsz hia haddr hsa hty hsacc hend3 hah
    · intro ah hah hahty hahacc
      exact walkStep_sys_consume hca how hsz hia haddr hsa hty hsacc hah hahty hahacc

/-- Witness for C1: on the accepted transaction txW the system-program
instruction at index 0 satisfies the creation conditions. -/
theorem creation_validation_witness : SysCreationCond txW 0 :=
  ((creation_validation_spec txW none txWParsed (by rfl)).1 0 (by decide)).1 (by rfl)

/-- C4: every accepted transaction yields one region more than the number of
memo-program instructions; the regions split at the memo instructions, region
0 holding the items decompiled before the first memo and each later region
carrying the memo instruction data of its memo and the items decompiled before
the next memo, as SegRel states over the walked regions, which agree with the
returned regions in everything but the parsed memo field. -/
theorem region_segmentation_spec (tx : Transaction) (il : Option InvoiceList) (parsed : Tx)
    (h : ParseTransaction tx il = .ok parsed) :
    ∃ rs, parseWalk tx 0 {} = .ok rs ∧ SegRel tx 0 {} rs ∧
      parsed.regions.map stripMemo = rs.map stripMemo ∧
      parsed.regions.length = countMemos tx 0 + 1 ∧
      parsed.regions.map Region.memoData = [] :: memoDatas tx 0 := by
  obtain ⟨rs, rs1, st, hw, hpr, _, _, hparsed, h0, h1⟩ := parseTransaction_ok_parts h
  have hw2 := hw
  unfold parseWalk at hw2
  obtain ⟨hrel, hlen, hmapmd, _⟩ := walkGo_ok_struct tx _ 0 {} rs (by omega) hw2
  obtain ⟨hmap, _⟩ := processRegions_ok_facts rs 0 {} hpr
  subst hparsed
  refine ⟨rs, hw, hrel, hmap, ?_, ?_⟩
  · show rs1.length = countMemos tx 0 + 1
    have hl : rs1.length = rs.length := by
      have := congrArg List.length hmap
      simpa using this
    rw [hl]
    exact hlen
  · show rs1.map Region.memoData = [] :: memoDatas tx 0
    have h2 : rs1.map Region.memoData = rs.map Region.memoData := by
      have h3 := congrArg (List.map Region.memoData) hmap
      rw [List.map_map, List.map_map] at h3
      exact h3
    rw [h2, hmapmd]

/-- Witness for C4: the decomposition on the accepted transaction txW. -/
theorem region_segmentation_witness :
    ∃ rs, parseWalk txW 0 {} = .ok rs ∧ SegRel txW 0 {} rs ∧
      txWParsed.regions.map stripMemo = rs.map stripMemo ∧
      txWParsed.regions.length = countMemos txW 0 + 1 ∧
      txWParsed.regions.map Region.memoData = [] :: memoDatas txW 0 :=
  region_segmentation_spec txW none txWParsed (by rfl)

/-- C3 (amended): ParseTransaction returns the mixed-transaction-types error
exactly when the walk and the whole per-region post pass succeed and the
walked regions include a lenient agora earn memo alongside a spend or p2p one;
in particular a transaction without such a mix never fails for this reason,
while a transaction with the mix can still fail earlier in the post pass (see
the counterexample). -/
theorem mixed_types_spec (tx : Transaction) (il : Option InvoiceList) :
    ParseTransaction tx il = .error .mixedTransactionTypes ↔
      (tx.message.instructions.length ≠ 0 ∧ tx.signatures.length ≠ 0 ∧
       ∃ rs rs1 st, parseWalk tx 0 {} = .ok rs ∧
         processRegions il 0 rs {} = .ok (rs1, st) ∧
         rs.any (regionHasType transactionTypeEarn) = true ∧
         (rs.any (regionHasType transactionTypeSpend) ||
           rs.any (regionHasType transactionTypeP2P)) = true) := by
  constructor
  · intro h
    obtain ⟨h0, h1, rs, hwok, hrest⟩ := parseTransaction_err_parts h (by decide)
    refine ⟨h0, h1, rs, ?_⟩
    rcases hrest with herr | ⟨rs1, st, hpr, hcase⟩
    · rcases processRegions_err_enum rs 0 {} herr with h2 | h2 | h2 | h2 | ⟨a, b, c, h2⟩ <;>
        cases h2
    · rcases hcase with ⟨hmix, _⟩ | ⟨_, _, _, heq⟩
      · obtain ⟨_, _, he, hs, hp2, _⟩ := processRegions_ok_facts rs 0 {} hpr
        have he2 : st.hasEarn = rs.any (regionHasType transactionTypeEarn) := by
          rw [he]
          rfl
        have hs2 : st.hasSpend = rs.any (regionHasType transactionTypeSpend) := by
          rw [hs]
          rfl
        have hp22 : st.hasP2P = rs.any (regionHasType transactionTypeP2P) := by
          rw [hp2]
          rfl
        rw [he2, hs2, hp22, Bool.and_eq_true] at hmix
        exact ⟨rs1, st, hwok, hpr, hmix.1, hmix.2⟩
      · cases heq
  · rintro ⟨h0, h1, rs, rs1, st, hw, hpr, hearn, hsp⟩
    obtain ⟨_, _, he, hs, hp2, _⟩ := processRegions_ok_facts rs 0 {} hpr
    have hmix : (st.hasEarn && (st.hasSpend || st.hasP2P)) = true := by
      have he2 : st.hasEarn = rs.any (regionHasType transactionTypeEarn) := by
        rw [he]
        rfl
      have hs2 : st.hasSpend = rs.any (regionHasType transactionTypeSpend) := by
        rw [hs]
        rfl
      have hp22 : st.hasP2P = rs.any (regionHasType transactionTypeP2P) := by
        rw [hp2]
        rfl
      rw [he2, hs2, hp22, hearn, hsp]
      rfl
    unfold ParseTransaction
    rw [if_neg h0, if_neg h1, hw]
    dsimp only
    rw [hpr]
    dsimp only
    rw [if_pos hmix]

/-- Counterexample to C3 as stated: memoMixTx mixes an earn memo with a spend
memo (their app indexes differ), yet ParseTransaction fails with the
multiple-app-indexes error of the per-region pass, not with the
mixed-transaction-types error the claim promises. -/
theorem mixed_types_cex :
    parseWalk memoMixTx 0 {} = .ok memoMixRegions ∧
    memoMixRegions.any (regionHasType transactionTypeEarn) = true ∧
    memoMixRegions.any (regionHasType transactionTypeSpend) = true ∧
    ParseTransaction memoMixTx none = .error .multipleAppIndexes ∧
    ParseTransaction memoMixTx none ≠ .error .mixedTransactionTypes := by
  refine ⟨by rfl, by decide, by decide, by rfl, ?_⟩
  rw [show ParseTransaction memoMixTx none = .error .multipleAppIndexes from by rfl]
  intro hc
  injection hc with hc
  cases hc

/-- C2 (amended): with an invoice list, acceptance forces exactly one walked
region to match it (the lenient agora memo parses, the first 28 foreign-key
bytes equal the invoice-list hash and the 29th is zero) and every matched
region to carry as many transfers as there are invoices; a region-match-count
failure reports the exact number of matched regions, which is not one, and a
count-mismatch failure exhibits a matched region whose transfer count differs
from the invoice count. The errors the claim promises can be preempted by
earlier post-pass failures (see the counterexample). -/
theorem invoice_matching_spec (tx : Transaction) (ilv : InvoiceList) :
    (∀ parsed, ParseTransaction tx (some ilv) = .ok parsed →
      ∃ rs, parseWalk tx 0 {} = .ok rs ∧
        rs.countP (regionMatchesInvoice ilv) = 1 ∧
        ∀ r ∈ rs, regionMatchesInvoice ilv r = true →
          ilv.invoiceCount = r.transfers.length) ∧
    (∀ n, ParseTransaction tx (some ilv) = .error (.invoiceRegionMatchCount n) →
      n ≠ 1 ∧ ∃ rs, parseWalk tx 0 {} = .ok rs ∧
        rs.countP (regionMatchesInvoice ilv) = n) ∧
    (∀ iv tr rg, ParseTransaction tx (some ilv) = .error (.invoiceCountMismatch iv tr rg) →
      ∃ rs, parseWalk tx 0 {} = .ok rs ∧ ∃ r ∈ rs, regionMatchesInvoice ilv r = true ∧
        iv = ilv.invoiceCount ∧ tr = r.transfers.length ∧ iv ≠ tr) := by
  refine ⟨?_, ?_, ?_⟩
  · intro parsed h
    obtain ⟨rs, rs1, st, hw, hpr, _, hrc, _, _, _⟩ := parseTransaction_ok_parts h
    obtain ⟨_, _, _, _, _, _, _, hil, _⟩ := processRegions_ok_facts rs 0 {} hpr
    obtain ⟨hcount, hmatch⟩ := hil ilv rfl
    refine ⟨rs, hw, ?_, hmatch⟩
    have hone := hrc (by rfl)
    have hcount2 : st.refCount = 0 + rs.countP (regionMatchesInvoice ilv) := hcount
    omega
  · intro n h
    obtain ⟨h0, h1, rs, hw, hrest⟩ := parseTransaction_err_parts h rfl
    rcases hrest with herr | ⟨rs1, st, hpr, hcase⟩
    · rcases processRegions_err_enum rs 0 {} herr with h2 | h2 | h2 | h2 | ⟨a, b, c, h2⟩ <;>
        cases h2
    · rcases hcase with ⟨_, heq⟩ | ⟨_, _, hne, heq⟩
      · cases heq
      · injection heq with heq
        subst heq
        obtain ⟨_, _, _, _, _, _, _, hil, _⟩ := processRegions_ok_facts rs 0 {} hpr
        obtain ⟨hcount, _⟩ := hil ilv rfl
        have hcount2 : st.refCount = 0 + rs.countP (regionMatchesInvoice ilv) := hcount
        exact ⟨hne, rs, hw, by omega⟩
  · intro iv tr rg h
    obtain ⟨h0, h1, rs, hw, hrest⟩ := parseTransaction_err_parts h rfl
    rcases hrest with herr | ⟨rs1, st, hpr, hcase⟩
    · obtain ⟨r, hr, hfacts⟩ := processRegions_err_countMismatch rs 0 {} herr
      exact ⟨rs, hw, r, hr, hfacts⟩
    · rcases hcase with ⟨_, heq⟩ | ⟨_, _, _, heq⟩ <;> cases heq

/-- Witness for C2: txInv with the matching invoice list ilZero is accepted,
so exactly one region matches and its transfer count equals the invoice
count. -/
theorem invoice_matching_witness :
    ∃ rs, parseWalk txInv 0 {} = .ok rs ∧
      rs.countP (regionMatchesInvoice ilZero) = 1 ∧
      ∀ r ∈ rs, regionMatchesInvoice ilZero r = true →
        ilZero.invoiceCount = r.transfers.length :=
  (invoice_matching_spec txInv ilZero).1 txInvParsed (by rfl)

/-- Counterexample to C2 as stated: with the non-matching invoice list ilNine
no region of memoMixTx matches (the match count is 0, not 1), yet
ParseTransaction fails with the multiple-app-indexes error of the same
per-region pass instead of the promised region-match-count error. -/
theorem invoice_matching_cex :
    parseWalk memoMixTx 0 {} = .ok memoMixRegions ∧
    memoMixRegions.countP (regionMatchesInvoice ilNine) = 0 ∧
    ParseTransaction memoMixTx (some ilNine) = .error .multipleAppIndexes ∧
    ParseTransaction memoMixTx (some ilNine) ≠ .error (.invoiceRegionMatchCount 0) := by
  refine ⟨by rfl, by decide, by rfl, ?_⟩
  rw [show ParseTransaction memoMixTx (some ilNine) = .error .multipleAppIndexes from by rfl]
  intro hc
  injection hc with hc
  cases hc

/-- C5: when the walk reaches a token-program Transfer instruction, an owner
equal to the account at index 0 makes the step fail with the
subsidizer-as-source error, which ParseTransaction returns; a different owner
appends the transfer to the current region and continues. -/
theorem subsidizer_as_source_spec (tx : Transaction) (il : Option InvoiceList)
    (i : Nat) (cur : Region) (t : DecompiledTransfer)
    (hreach : WalkReaches tx i cur) (hi : i < tx.message.instructions.length)
    (hcmd : GetCommand tx.message i = 3)
    (ht : DecompileTransfer tx.message i = some t)
    (hsig : tx.signatures.length ≠ 0) :
    (t.owner = tx.message.account 0 →
      walkStep tx i cur = .err .subsidizerAsSource ∧
      ParseTransaction tx il = .error .subsidizerAsSource) ∧
    (t.owner ≠ tx.message.account 0 →
      walkStep tx i cur = .cont (i + 1) (cur.addTransfer t)) := by
  have hf := decompileTransfer_facts ht
  have hspl := isSPL_true_of_key hf.1
  constructor
  · intro hown
    have hstep := @walkStep_transfer_err tx i cur t hspl hcmd ht hown
    refine ⟨hstep, ?_⟩
    have herr := parseWalk_err hstep hi
    exact parseTransaction_error_of_walk (by omega) hsig (walkReaches_error hreach herr)
  · intro hown
    exact @walkStep_transfer_cont tx i cur t hspl hcmd ht hown

/-- Witness for C5: txSub transfers from an account owned by the subsidizer
and is rejected with the subsidizer-as-source error. -/
theorem subsidizer_as_source_witness :
    ParseTransaction txSub none = .error .subsidizerAsSource :=
  ((subsidizer_as_source_spec txSub none 0 {} tSub WalkReaches.start (by decide) (by rfl)
    (by rfl) (by decide)).1 (by rfl)).2

/-- C8 (amended): AppIDFromTextMemo succeeds exactly when the memo splits on
the dash into at least two parts with first part 1 and a valid second part,
returning that second part - where validity requires the BYTE length to be 3
or 4 (Go len counts bytes, not characters) and every decoded rune to be a
Unicode letter or digit (not only ASCII); an accepted transaction adopts every
text-memo app id of its walked regions as the transaction app id; and a
multiple-app-ids failure exhibits two distinct text-memo app ids among the
walked regions. The claimed 3-4 alphanumeric CHARACTERS is refuted by the
counterexample. -/
theorem text_memo_app_id_spec :
    (∀ s, IsValidAppID s = true ↔
      (3 ≤ s.length ∧ s.length ≤ 4 ∧
        (utf8DecodeGo s).all (fun c => goIsLetter c || goIsDigit c) = true)) ∧
    (∀ memo a, AppIDFromTextMemo memo = some a ↔
      (2 ≤ (splitOnByte 45 memo).length ∧ (splitOnByte 45 memo).getD 0 [] = [49] ∧
       IsValidAppID ((splitOnByte 45 memo).getD 1 []) = true ∧
       a = (splitOnByte 45 memo).getD 1 [])) ∧
    (∀ (tx : Transaction) (il : Option InvoiceList) (parsed : Tx) (rs : List Region),
      ParseTransaction tx il = .ok parsed → parseWalk tx 0 {} = .ok rs →
      ∀ r ∈ rs, ∀ a, textMemoID r = some a → parsed.appID = a) ∧
    (∀ (tx : Transaction) (il : Option InvoiceList),
      ParseTransaction tx il = .error .multipleAppIDs →
      ∃ rs, parseWalk tx 0 {} = .ok rs ∧
        ∃ a ∈ rs.filterMap textMemoID, ∃ b ∈ rs.filterMap textMemoID, a ≠ b) := by
  refine ⟨?_, ?_, ?_, ?_⟩
  · intro s
    unfold IsValidAppID
    by_cases h1 : s.length < 3 ∨ s.length > 4
    · rw [if_pos (by rcases h1 with h1 | h1 <;> simp [h1])]
      exact iff_of_false (by simp) (by omega)
    · rw [if_neg (by simpa using h1)]
      constructor
      · intro h
        exact ⟨by omega, by omega, h⟩
      · intro h
        exact h.2.2
  · intro memo a
    constructor
    · intro h
      unfold AppIDFromTextMemo at h
      by_cases h1 : (splitOnByte 45 memo).length < 2
      · rw [if_pos h1] at h
        cases h
      · rw [if_neg h1] at h
        by_cases h2 : (splitOnByte 45 memo).getD 0 [] ≠ [49]
        · rw [if_pos h2] at h
          cases h
        · rw [if_neg h2] at h
          by_cases h3 : ¬ IsValidAppID ((splitOnByte 45 memo).getD 1 [])
          · rw [if_pos h3] at h
            cases h
          · rw [if_neg h3] at h
            injection h with h
            exact ⟨by omega, not_not.mp h2, by simpa using not_not.mp h3, h.symm⟩
    · rintro ⟨h1, h2, h3, rfl⟩
      unfold AppIDFromTextMemo
      rw [if_neg (by omega), if_neg (not_not.mpr h2), if_neg (not_not.mpr h3)]
  · intro tx il parsed rs h hrs r hr a ha
    obtain ⟨rs2, rs1, st, hw, hpr, _, _, hparsed, _, _⟩ := parseTransaction_ok_parts h
    rw [hrs] at hw
    injection hw with hw
    subst hw
    obtain ⟨_, _, _, _, _, _, htext, _, _⟩ := processRegions_ok_facts rs 0 {} hpr
    subst hparsed
    exact htext r hr a ha
  · intro tx il h
    obtain ⟨h0, h1, rs, hw, hrest⟩ := parseTransaction_err_parts h (by decide)
    rcases hrest with herr | ⟨rs1, st, hpr, hcase⟩
    · obtain ⟨a, hmem, b, hb, hab⟩ := processRegions_err_appIDs rs 0 {} [] (Or.inl rfl) herr
      rcases hmem with hmem | hmem
      · cases hmem
      · exact ⟨rs, hw, a, hmem, b, hb, hab⟩
    · rcases hcase with ⟨_, heq⟩ | ⟨_, _, _, heq⟩ <;> cases heq

/-- Counterexample to C8 as stated: the memo whose bytes are 1, dash, then
230 151 165 97 (the UTF-8 of a CJK letter followed by the letter a) is
accepted with an app id of 4 bytes but only TWO characters, so the accepted
app id is not 3-4 alphanumeric characters; and the memo whose bytes are 1,
dash, then three copies of 195 128 (a two-byte Latin capital letter) has a
second part of THREE alphanumeric characters yet is rejected, its byte length
being 6. The byte-length check and the rune-wise classification of the source
cannot be phrased as a character count. -/
theorem text_memo_app_id_cex :
    AppIDFromTextMemo [49, 45, 230, 151, 165, 97] = some [230, 151, 165, 97] ∧
    (utf8DecodeGo [230, 151, 165, 97]).length = 2 ∧
    (utf8DecodeGo [230, 151, 165, 97]).all (fun c => goIsLetter c || goIsDigit c) = true ∧
    AppIDFromTextMemo [49, 45, 195, 128, 195, 128, 195, 128] = none ∧
    (utf8DecodeGo [195, 128, 195, 128, 195, 128]).length = 3 ∧
    (utf8DecodeGo [195, 128, 195, 128, 195, 128]).all
      (fun c => goIsLetter c || goIsDigit c) = true := by
  refine ⟨by decide, by decide, by decide, by decide, by decide, by decide⟩

/-- Witness for C8: the accepted transaction txText carries the text memo
1-test, and the parsed transaction adopts the app id test. -/
theorem text_memo_app_id_witness : txTextParsed.appID = [116, 101, 115, 116] :=
  text_memo_app_id_spec.2.2.1 txText none txTextParsed txTextRegions (by rfl) (by rfl)
    rText (by decide) [116, 101, 115, 116] (by rfl)

theorem leUint64Bytes_length (n : Nat) : (leUint64Bytes n).length = 8 := rfl

theorem writeAligned (b pre rest src : Bytes) (off : Nat)
    (hb : b = pre ++ rest) (hoff : pre.length = off) (h : src.length ≤ rest.length) :
    writeBytesAt b off src = pre ++ (src ++ rest.drop src.length) := by
  subst hb
  subst hoff
  unfold writeBytesAt
  rw [List.take_left, List.length_append]
  have h2 : pre.length + rest.length - pre.length = rest.length := by omega
  rw [h2, List.take_of_length_le h, List.drop_append src.length, List.append_assoc]

theorem writeZeros (b pre src : Bytes) (off z z2 : Nat)
    (hb : b = pre ++ List.replicate z 0) (hoff : pre.length = off)
    (h : src.length ≤ z) (hz2 : z2 = z - src.length) :
    writeBytesAt b off src = (pre ++ src) ++ List.replicate z2 0 := by
  have h0 := writeAligned b pre (List.replicate z 0) src off hb hoff
    (by rw [List.length_replicate]; omega)
  rw [h0]
  have hdrop : (List.replicate z (0:Nat)).drop src.length = List.replicate z2 0 := by
    rw [hz2]
    simp
  rw [hdrop, ← List.append_assoc]

theorem writeZerosPad (b pre src : Bytes) (off pad z z2 : Nat)
    (hb : b = pre ++ List.replicate z 0) (hoff : pre.length + pad = off)
    (h : pad + src.length ≤ z) (hz2 : z2 = z - pad - src.length) :
    writeBytesAt b off src = ((pre ++ List.replicate pad 0) ++ src) ++ List.replicate z2 0 := by
  have hsplit : List.replicate z (0:Nat) = List.replicate pad 0 ++ List.replicate (z - pad) 0 := by
    rw [← List.replicate_add]
    have hpz : pad + (z - pad) = z := by omega
    rw [hpz]
  have hb2 : b = (pre ++ List.replicate pad 0) ++ List.replicate (z - pad) 0 := by
    rw [hb, hsplit, List.append_assoc]
  exact writeZeros b (pre ++ List.replicate pad 0) src off (z - pad) z2 hb2
    (by rw [List.length_append, List.length_replicate]; omega)
    (by omega) (by omega)

theorem optKeyWrite (P k : Bytes) (off1 off2 z z2 : Nat)
    (hP : P.length = off1) (h2 : off2 = off1 + 4)
    (hk : k = [] ∨ k.length = 32) (hz : 36 ≤ z) (hz2 : z2 = z - 36) :
    (if k.length > 0 then
      writeBytesAt (writeBytesAt (P ++ List.replicate z 0) off1 [1]) off2 k
    else P ++ List.replicate z 0) =
    (P ++ (if k.length > 0 then [1, 0, 0, 0] ++ k else List.replicate 36 0)) ++
      List.replicate z2 0 := by
  rcases hk with hk | hk
  · have hcond : ¬ (k.length > 0) := by simp [hk]
    rw [if_neg hcond, if_neg hcond]
    have h36 : (36 : Nat) + z2 = z := by omega
    rw [List.append_assoc, ← List.replicate_add, h36]
  · have hcond : k.length > 0 := by omega
    rw [if_pos hcond, if_pos hcond]
    rw [writeZeros (P ++ List.replicate z 0) P [1] off1 z (z - 1) rfl hP
      (by simp; omega) (by simp)]
    rw [writeZerosPad ((P ++ [1]) ++ List.replicate (z - 1) 0) (P ++ [1]) k off2 3 (z - 1) z2
      rfl (by simp [hP]; omega) (by omega) (by omega)]
    rw [show List.replicate 3 (0:Nat) = [0, 0, 0] from rfl]
    simp [List.append_assoc]

theorem account_marshal_layout (a : Account) (hm : a.mint.length = 32)
    (ho : a.owner.length = 32) (hd : a.delegate = [] ∨ a.delegate.length = 32)
    (hc : a.closeAuthority = [] ∨ a.closeAuthority.length = 32)
    (hs : a.state < 256) :
    a.Marshal = accountBytesSpec a := by
  have hdlen : (if a.delegate.length > 0 then ([1, 0, 0, 0] : Bytes) ++ a.delegate
      else List.replicate 36 0).length = 36 := by
    rcases hd with hd | hd <;> simp [hd]
  cases hni : a.isNative with
  | none =>
    simp only [Account.Marshal, accountBytesSpec, hni, Option.elim]
    rw [writeZeros (List.replicate 165 0) [] a.mint 0 165 133 rfl rfl (by omega) (by omega)]
    rw [writeZeros (([] ++ a.mint) ++ List.replicate 133 0) ([] ++ a.mint) a.owner 32 133 101
      rfl (by simp [hm]) (by omega) (by omega)]
    rw [writeZeros ((([] ++ a.mint) ++ a.owner) ++ List.replicate 101 0)
      (([] ++ a.mint) ++ a.owner) (leUint64Bytes a.amount) 64 101 93
      rfl (by simp [hm, ho]) (by rw [leUint64Bytes_length]; omega)
      (by rw [leUint64Bytes_length])]
    rw [optKeyWrite (((([] ++ a.mint) ++ a.owner) ++ leUint64Bytes a.amount)) a.delegate
      72 76 93 57 (by simp only [List.length_append, List.length_nil, List.length_singleton, List.length_replicate, hm, ho, leUint64Bytes_length]) rfl hd (by omega) (by omega)]
    rw [writeZeros _ ((((([] ++ a.mint) ++ a.owner) ++ leUint64Bytes a.amount) ++
        (if a.delegate.length > 0 then [1, 0, 0, 0] ++ a.delegate else List.replicate 36 0)))
      [a.state % 256] 108 57 56 rfl
      (by simp only [List.length_append, List.length_nil, List.length_singleton, List.length_replicate, hm, ho, leUint64Bytes_length, hdlen]) (by simp) (by simp)]
    rw [writeZerosPad _ (((((([] ++ a.mint) ++ a.owner) ++ leUint64Bytes a.amount) ++
        (if a.delegate.length > 0 then [1, 0, 0, 0] ++ a.delegate else List.replicate 36 0)) ++
        [a.state % 256]))
      (leUint64Bytes a.delegatedAmount) 121 12 56 36 rfl
      (by simp only [List.length_append, List.length_nil, List.length_singleton, List.length_replicate, hm, ho, leUint64Bytes_length, hdlen]) (by rw [leUint64Bytes_length]; omega)
      (by rw [leUint64Bytes_length])]
    rw [optKeyWrite _ a.closeAuthority 129 133 36 0
      (by simp only [List.length_append, List.length_nil, List.length_singleton, List.length_replicate, hm, ho, leUint64Bytes_length, hdlen]) rfl hc (by omega) (by omega)]
    rw [Nat.mod_eq_of_lt hs]
    simp [List.append_assoc]
  | some v =>
    simp only [Account.Marshal, accountBytesSpec, hni, Option.elim]
    rw [writeZeros (List.replicate 165 0) [] a.mint 0 165 133 rfl rfl (by omega) (by omega)]
    rw [writeZeros (([] ++ a.mint) ++ List.replicate 133 0) ([] ++ a.mint) a.owner 32 133 101
      rfl (by simp [hm]) (by omega) (by omega)]
    rw [writeZeros ((([] ++ a.mint) ++ a.owner) ++ List.replicate 101 0)
      (([] ++ a.mint) ++ a.owner) (leUint64Bytes a.amount) 64 101 93
      rfl (by simp [hm, ho]) (by rw [leUint64Bytes_length]; omega)
      (by rw [leUint64Bytes_length])]
    rw [optKeyWrite (((([] ++ a.mint) ++ a.owner) ++ leUint64Bytes a.amount)) a.delegate
      72 76 93 57 (by simp only [List.length_append, List.length_nil, List.length_singleton, List.length_replicate, hm, ho, leUint64Bytes_length]) rfl hd (by omega) (by omega)]
    rw [writeZeros _ ((((([] ++ a.mint) ++ a.owner) ++ leUint64Bytes a.amount) ++
        (if a.delegate.length > 0 then [1, 0, 0, 0] ++ a.delegate else List.replicate 36 0)))
      [a.state % 256] 108 57 56 rfl
      (by simp only [List.length_append, List.length_nil, List.length_singleton, List.length_replicate, hm, ho, leUint64Bytes_length, hdlen]) (by simp) (by simp)]
    rw [writeZeros _ (((((([] ++ a.mint) ++ a.owner) ++ leUint64Bytes a.amount) ++
        (if a.delegate.length > 0 then [1, 0, 0, 0] ++ a.delegate else List.replicate 36 0)) ++
        [a.state % 256]))
      [1] 109 56 55 rfl
      (by simp only [List.length_append, List.length_nil, List.length_singleton, List.length_replicate, hm, ho, leUint64Bytes_length, hdlen]) (by simp) (by simp)]
    rw [writeZerosPad _ ((((((([] ++ a.mint) ++ a.owner) ++ leUint64Bytes a.amount) ++
        (if a.delegate.length > 0 then [1, 0, 0, 0] ++ a.delegate else List.replicate 36 0)) ++
        [a.state % 256]) ++ [1]))
      (leUint64Bytes v) 113 3 55 44 rfl
      (by simp only [List.length_append, List.length_nil, List.length_singleton, List.length_replicate, hm, ho, leUint64Bytes_length, hdlen]) (by rw [leUint64Bytes_length]; omega)
      (by rw [leUint64Bytes_length])]
    rw [writeZeros _ (((((((([] ++ a.mint) ++ a.owner) ++ leUint64Bytes a.amount) ++
        (if a.delegate.length > 0 then [1, 0, 0, 0] ++ a.delegate else List.replicate 36 0)) ++
        [a.state % 256]) ++ [1]) ++ List.replicate 3 0) ++ leUint64Bytes v)
      (leUint64Bytes a.delegatedAmount) 121 44 36 rfl
      (by simp only [List.length_append, List.length_nil, List.length_singleton, List.length_replicate, hm, ho, leUint64Bytes_length, hdlen]) (by rw [leUint64Bytes_length]; omega)
      (by rw [leUint64Bytes_length])]
    rw [optKeyWrite _ a.closeAuthority 129 133 36 0
      (by simp only [List.length_append, List.length_nil, List.length_singleton, List.length_replicate, hm, ho, leUint64Bytes_length, hdlen]) rfl hc (by omega) (by omega)]
    rw [Nat.mod_eq_of_lt hs, show List.replicate 3 (0:Nat) = [0, 0, 0] from rfl]
    simp [List.append_assoc]

theorem getD_drop0 (l : Bytes) (n : Nat) : l.getD n 0 = (l.drop n).getD 0 0 := by
  simp [List.getD, List.getElem?_drop]

theorem leUint64_append8 (l t : Bytes) (h : l.length = 8) :
    leUint64 (l ++ t) = leUint64 l := by
  unfold leUint64
  rw [List.getD_append _ _ _ _ (by omega), List.getD_append _ _ _ _ (by omega),
    List.getD_append _ _ _ _ (by omega), List.getD_append _ _ _ _ (by omega),
    List.getD_append _ _ _ _ (by omega), List.getD_append _ _ _ _ (by omega),
    List.getD_append _ _ _ _ (by omega), List.getD_append _ _ _ _ (by omega)]

theorem leUint64_leUint64Bytes (n : Nat) (h : n < 2 ^ 64) :
    leUint64 (leUint64Bytes n) = n := by
  unfold leUint64 leUint64Bytes
  simp [List.getD]
  omega

theorem drop_step (b l r : Bytes) (n m k : Nat)
    (hb : b.drop n = l ++ r) (hl : l.length = m) (hk : k = n + m) :
    b.drop k = r := by
  rw [hk, ← List.drop_drop, hb]
  exact List.drop_left' hl

theorem drop_step_inside (b l r : Bytes) (n m k : Nat)
    (hb : b.drop n = l ++ r) (hm2 : m ≤ l.length) (hk : k = n + m) :
    b.drop k = l.drop m ++ r := by
  rw [hk, ← List.drop_drop, hb]
  exact List.drop_append_of_le_length hm2

theorem unmarshal_concat (mint owner delegate close : Bytes) (amount st damount : Nat)
    (native : Option Nat) (dblock nblock cblock : Bytes)
    (hm : mint.length = 32) (ho : owner.length = 32)
    (hdb : (dblock = [1, 0, 0, 0] ++ delegate ∧ delegate.length = 32) ∨
      (dblock = List.replicate 36 0 ∧ delegate = []))
    (hnb : (∃ v, native = some v ∧ nblock = [1, 0, 0, 0] ++ leUint64Bytes v ∧ v < 2 ^ 64) ∨
      (native = none ∧ nblock = List.replicate 12 0))
    (hcb : (cblock = [1, 0, 0, 0] ++ close ∧ close.length = 32) ∨
      (cblock = List.replicate 36 0 ∧ close = []))
    (hamt : amount < 2 ^ 64) (hda : damount < 2 ^ 64) :
    Account.Unmarshal (mint ++ (owner ++ (leUint64Bytes amount ++ (dblock ++ ([st] ++
      (nblock ++ (leUint64Bytes damount ++ cblock))))))) =
    some { mint := mint, owner := owner, amount := amount, delegate := delegate,
           state := st, isNative := native, delegatedAmount := damount,
           closeAuthority := close } := by
  have hd36 : dblock.length = 36 := by
    rcases hdb with ⟨h1, h2⟩ | ⟨h1, h2⟩ <;> simp [h1, h2]
  have hn12 : nblock.length = 12 := by
    rcases hnb with ⟨v, h1, h2, h3⟩ | ⟨h1, h2⟩ <;> simp [h2, leUint64Bytes_length]
  have hc36 : cblock.length = 36 := by
    rcases hcb with ⟨h1, h2⟩ | ⟨h1, h2⟩ <;> simp [h1, h2]
  set B := mint ++ (owner ++ (leUint64Bytes amount ++ (dblock ++ ([st] ++
    (nblock ++ (leUint64Bytes damount ++ cblock)))))) with hB
  have hlen : B.length = 165 := by
    rw [hB]
    simp only [List.length_append, List.length_singleton, leUint64Bytes_length,
      hm, ho, hd36, hn12, hc36]
  have s32 : B.drop 32 = owner ++ (leUint64Bytes amount ++ (dblock ++ ([st] ++
      (nblock ++ (leUint64Bytes damount ++ cblock))))) :=
    drop_step B mint _ 0 32 32 (by rw [List.drop_zero]) hm rfl
  have t32 : B.take 32 = mint := by
    rw [hB]
    exact List.take_left' hm
  have s64 : B.drop 64 = leUint64Bytes amount ++ (dblock ++ ([st] ++
      (nblock ++ (leUint64Bytes damount ++ cblock)))) :=
    drop_step B owner _ 32 32 64 s32 ho rfl
  have s72 : B.drop 72 = dblock ++ ([st] ++ (nblock ++ (leUint64Bytes damount ++ cblock))) :=
    drop_step B (leUint64Bytes amount) _ 64 8 72 s64 (leUint64Bytes_length amount) rfl
  have s76 : B.drop 76 = dblock.drop 4 ++ ([st] ++ (nblock ++
      (leUint64Bytes damount ++ cblock))) :=
    drop_step_inside B dblock _ 72 4 76 s72 (by omega) rfl
  have s108 : B.drop 108 = [st] ++ (nblock ++ (leUint64Bytes damount ++ cblock)) :=
    drop_step B (dblock.drop 4) _ 76 32 108 s76 (by rw [List.length_drop, hd36]) rfl
  have s109 : B.drop 109 = nblock ++ (leUint64Bytes damount ++ cblock) :=
    drop_step B [st] _ 108 1 109 s108 rfl rfl
  have s113 : B.drop 113 = nblock.drop 4 ++ (leUint64Bytes damount ++ cblock) :=
    drop_step_inside B nblock _ 109 4 113 s109 (by omega) rfl
  have s121 : B.drop 121 = leUint64Bytes damount ++ cblock :=
    drop_step B (nblock.drop 4) _ 113 8 121 s113 (by rw [List.length_drop, hn12]) rfl
  have s129 : B.drop 129 = cblock :=
    drop_step B (leUint64Bytes damount) _ 121 8 129 s121 (leUint64Bytes_length damount) rfl
  have s133 : B.drop 133 = cblock.drop 4 := by
    rw [show (133 : Nat) = 129 + 4 from rfl, ← List.drop_drop, s129]
  unfold Account.Unmarshal
  rw [if_neg (by rw [hlen]; omega)]
  refine congrArg some ?_
  congr 1
  case e_owner =>
    rw [s32]
    exact List.take_left' ho
  case e_amount =>
    rw [s64, leUint64_append8 _ _ (leUint64Bytes_length amount)]
    exact leUint64_leUint64Bytes amount hamt
  case e_delegate =>
    rw [getD_drop0 B 72, s72, List.getD_append _ _ _ _ (by omega), s76,
      List.take_left' (show (dblock.drop 4).length = 32 by rw [List.length_drop, hd36])]
    rcases hdb with ⟨h1, h2⟩ | ⟨h1, h2⟩
    · simp [h1]
    · rw [h1, h2]
      decide
  case e_state =>
    rw [getD_drop0 B 108, s108]
    rfl
  case e_isNative =>
    rw [getD_drop0 B 109, s109, List.getD_append _ _ _ _ (by omega), s113,
      leUint64_append8 _ _ (by rw [List.length_drop, hn12])]
    rcases hnb with ⟨v, hv1, hv2, hv3⟩ | ⟨h1, h2⟩
    · rw [hv1, hv2]
      simp [leUint64_leUint64Bytes v hv3]
    · rw [h1, h2]
      decide
  case e_delegatedAmount =>
    rw [s121, leUint64_append8 _ _ (leUint64Bytes_length damount)]
    exact leUint64_leUint64Bytes damount hda
  case e_closeAuthority =>
    rw [getD_drop0 B 129, s129, s133,
      List.take_of_length_le (show (cblock.drop 4).length <= 32 by
        simp [List.length_drop, hc36])]
    rcases hcb with ⟨h1, h2⟩ | ⟨h1, h2⟩
    · simp [h1]
    · rw [h1, h2]
      decide

/-- C7: for every token Account with 32-byte mint and owner keys and optional
32-byte delegate and close-authority keys (and field values within their Go
widths), Marshal produces exactly the 165-byte layout accountBytesSpec - mint,
owner, little-endian amount, 36-byte optional delegate, state byte, 12-byte
optional isNative, little-endian delegated amount and 36-byte optional close
authority, each optional block occupying its full width whether present or
not - and Unmarshal maps those bytes back to the original account. -/
theorem token_account_state_spec (a : Account)
    (hm : a.mint.length = 32) (ho : a.owner.length = 32)
    (hd : a.delegate = [] ∨ a.delegate.length = 32)
    (hc : a.closeAuthority = [] ∨ a.closeAuthority.length = 32)
    (hamt : a.amount < 2 ^ 64) (hst : a.state < 256)
    (hnv : ∀ v, a.isNative = some v → v < 2 ^ 64) (hda : a.delegatedAmount < 2 ^ 64) :
    a.Marshal = accountBytesSpec a ∧ Account.Unmarshal a.Marshal = some a := by
  have hlay := account_marshal_layout a hm ho hd hc hst
  refine ⟨hlay, ?_⟩
  rw [hlay]
  rcases a with ⟨mint, owner, amount, delegate, state, native, damount, close⟩
  dsimp only at hm ho hd hc hamt hst hnv hda ⊢
  unfold accountBytesSpec
  dsimp only
  have hdb : ((if delegate.length > 0 then ([1, 0, 0, 0] : Bytes) ++ delegate
        else List.replicate 36 0) = [1, 0, 0, 0] ++ delegate ∧ delegate.length = 32) ∨
      ((if delegate.length > 0 then ([1, 0, 0, 0] : Bytes) ++ delegate
        else List.replicate 36 0) = List.replicate 36 0 ∧ delegate = []) := by
    rcases hd with hd | hd
    · exact Or.inr ⟨by simp [hd], hd⟩
    · exact Or.inl ⟨by rw [if_pos (by omega)], hd⟩
  have hcb : ((if close.length > 0 then ([1, 0, 0, 0] : Bytes) ++ close
        else List.replicate 36 0) = [1, 0, 0, 0] ++ close ∧ close.length = 32) ∨
      ((if close.length > 0 then ([1, 0, 0, 0] : Bytes) ++ close
        else List.replicate 36 0) = List.replicate 36 0 ∧ close = []) := by
    rcases hc with hc | hc
    · exact Or.inr ⟨by simp [hc], hc⟩
    · exact Or.inl ⟨by rw [if_pos (by omega)], hc⟩
  have hnb : (∃ v, native = some v ∧
        native.elim (List.replicate 12 0) (fun v => ([1, 0, 0, 0] : Bytes) ++ leUint64Bytes v) =
          [1, 0, 0, 0] ++ leUint64Bytes v ∧ v < 2 ^ 64) ∨
      (native = none ∧
        native.elim (List.replicate 12 0) (fun v => ([1, 0, 0, 0] : Bytes) ++ leUint64Bytes v) =
          List.replicate 12 0) := by
    cases hni : native with
    | some v => exact Or.inl ⟨v, rfl, rfl, hnv v hni⟩
    | none => exact Or.inr ⟨rfl, rfl⟩
  exact unmarshal_concat mint owner delegate close amount state damount native _ _ _
    hm ho hdb hnb hcb hamt hda

/-- Witness for C7 on a concrete account with all optional fields present. -/
theorem token_account_state_witness :
    acctW.Marshal = accountBytesSpec acctW ∧
    Account.Unmarshal acctW.Marshal = some acctW :=
  token_account_state_spec acctW (by decide) (by decide) (by decide) (by decide)
    (by decide) (by decide) (by intro v hv; injection hv with hv; omega) (by decide)

end Agora
